import Mathlib

/-!
# RobotsIO camera: deprojection matrix, point cloud, frame sequencing, loader and recorder

A shallow embedding of `src/RobotsIO/src/Camera/Camera.cpp`.

* Floating point numbers are an arbitrary type `α` carrying the operations the
  code uses (`-`, `/`, `*`, `+`, `<`, the conversion from unsigned integers and
  the literals `0` and `1`).  No algebraic law is assumed unless a theorem says
  so, hence every statement holds for any interpretation of the arithmetic.
  `float` depth values are read as elements of the same type (the promotion
  `float → double` is exact).
* `std::size_t` loop variables and matrix sizes are natural numbers.
* 32 bit signed integers (`int i`, `std::int32_t frame_index_`) are integers
  together with the explicit two's complement reduction `wrapInt32` at every
  increment.
* A `std::pair<bool, T>` is a pair `Bool × T`; a thrown exception is `none`.
* Matrices are black boxes with a shape and a coefficient function; a write outside the shape is
  dropped, a read outside the shape returns whatever the coefficient function holds there.
* A `std::string` is a list of characters and a text file is the list of its lines.  What the
  standard library and the matrix library do with numbers (printing, `std::stod`, conversion
  between rotations and axis-angle pairs) is a field of `Primitives`.
-/

namespace RobotsIO

/-! ## Primitives -/

/-- The loop `for (std::size_t k = 0; k < n; k++) s = body(s, k);`. -/
def forLoop {σ : Type} (n : Nat) (body : σ → Nat → σ) (init : σ) : σ :=
  match n with
  | 0 => init
  | k + 1 => body (forLoop k body init) k

/-- Two's complement reduction of an integer to the range of a 32 bit signed integer. -/
def wrapInt32 (z : Int) : Int := (z + 2147483648) % 4294967296 - 2147483648

/-- A dense matrix (`Eigen::Matrix<α, Dynamic, Dynamic>`): its shape and its coefficients.
Coefficients outside the shape are storage the matrix does not own. -/
structure MatrixX (α : Type) where
  rows : Nat
  cols : Nat
  coeff : Nat → Nat → α

namespace MatrixX

variable {α : Type}

/-- The default constructed matrix `MatrixXd()`, of shape `0 x 0`. -/
def empty [Zero α] : MatrixX α := ⟨0, 0, fun _ _ => 0⟩

/-- The constructor `MatrixXd(r, c)`: a fresh `r x c` matrix. -/
def alloc [Zero α] (r c : Nat) : MatrixX α := ⟨r, c, fun _ _ => 0⟩

/-- The call `m.resize(r, c)`: the shape changes, the contents are unspecified (kept as they are). -/
def resize (m : MatrixX α) (r c : Nat) : MatrixX α := { m with rows := r, cols := c }

/-- The assignment `m(r, c) = x`; a write outside the shape does not change the matrix. -/
def set (m : MatrixX α) (r c : Nat) (x : α) : MatrixX α :=
  if r < m.rows ∧ c < m.cols then
    { m with coeff := fun i j => if i = r ∧ j = c then x else m.coeff i j }
  else m

/-- The assignment `m(r, i) = x` for a signed column index `i`. -/
def setI (m : MatrixX α) (r : Nat) (i : Int) (x : α) : MatrixX α :=
  if 0 ≤ i then m.set r i.toNat x else m

/-- The reduction `m.sum()` of an integer matrix, a primitive of the matrix library: the sum of
all coefficients within the shape. -/
def sum (m : MatrixX Int) : Int :=
  forLoop m.cols (fun acc c => forLoop m.rows (fun acc r => acc + m.coeff r c) acc) 0

end MatrixX

/-- The intrinsic parameters of a camera. -/
structure CameraParameters (α : Type) where
  width : Nat
  height : Nat
  fx : α
  cx : α
  fy : α
  cy : α
  initialized : Bool

/-- The method `CameraParameters::is_initialized`. -/
def CameraParameters.is_initialized {α : Type} (p : CameraParameters α) : Bool := p.initialized

/-- An output text stream `std::ofstream`: whether its file is open, whether an error flag
(`failbit` or `badbit`) is set, and the lines written so far to the file it is open on (a line is
what precedes one `std::endl`). -/
structure OfStream where
  is_open : Bool
  fail : Bool
  lines : List (List Char)

/-- The default constructed stream: not open, no error flag. -/
def OfStream.closed : OfStream := ⟨false, false, []⟩

/-- The call `s.open(name)` in the default mode, which empties the file; `opens` tells whether
the file `name` can be opened.  On a stream that is already open the call fails whatever the
file is: the error flag is set and the stream stays open on its old file.  On a stream that is
not open the call opens the file, empties it and clears the error flag when the file can be
opened, and sets the error flag when it cannot. -/
def OfStream.open_ (s : OfStream) (opens : Bool) : OfStream :=
  if s.is_open then { s with fail := true }
  else if opens then ⟨true, false, []⟩
  else { s with fail := true }

/-- The statement `s << line << std::endl`.  The line reaches the file when the stream is open
and no error flag is set; otherwise nothing is written and the error flag is (or stays) set. -/
def OfStream.putLine (s : OfStream) (line : List Char) : OfStream :=
  if s.is_open = true ∧ s.fail = false then { s with lines := s.lines ++ [line] }
  else { s with fail := true }

/-- The data members of `Camera` that the embedded methods read or write.  The recorder's members
`log_path_`, `log_index_` and `log_` start as a default constructed camera has them. -/
structure Camera (α : Type) where
  status_ : Bool
  parameters_ : CameraParameters α
  deprojection_matrix_ : MatrixX α
  deprojection_matrix_initialized_ : Bool
  offline_mode_ : Bool
  frame_index_ : Int
  data_ : MatrixX α
  log_path_ : List Char := []
  /-- Modelled from the spec: the recorder's "internal frame counter", declared in `Camera.h`; a
  natural number that `start_log` sets to 0 and `log_frame` increments. -/
  log_index_ : Nat := 0
  log_ : OfStream := OfStream.closed

section Deprojection

variable {α : Type} [NatCast α] [Sub α] [Div α] [One α]

/-- The body of the inner loop of `Camera::evaluate_deprojection_matrix` (lines 327-331); the state
is the matrix and the counter `int i`. -/
def deprojBody (p : CameraParameters α) (u : Nat) (st : MatrixX α × Int) (v : Nat) :
    MatrixX α × Int :=
  let m0 := st.1.setI 0 st.2 (((u : α) - p.cx) / p.fx)
  let m1 := m0.setI 1 st.2 (((v : α) - p.cy) / p.fy)
  let m2 := m1.setI 2 st.2 1
  (m2, wrapInt32 (st.2 + 1))

/-- The method `Camera::evaluate_deprojection_matrix` (lines 313-338). -/
def evaluate_deprojection_matrix (cam : Camera α) : Option (Bool × Camera α) :=
  if !cam.parameters_.is_initialized then none
  else
    let m := cam.deprojection_matrix_.resize 3 (cam.parameters_.width * cam.parameters_.height)
    let st := forLoop cam.parameters_.width
      (fun st u => forLoop cam.parameters_.height (fun st v => deprojBody cam.parameters_ u st v) st)
      (m, (0 : Int))
    some (true, { cam with deprojection_matrix_ := st.1, deprojection_matrix_initialized_ := true })

/-- The loop invariant of `evaluate_deprojection_matrix` on entry to iteration `(u, v)`: the counter
is `u * height + v`, the shape is `3 x (width * height)` and the columns of all earlier pixels hold
their rays. -/
def DeprojInv (p : CameraParameters α) (u v : Nat) (st : MatrixX α × Int) : Prop :=
  st.2 = ((u * p.height + v : Nat) : Int) ∧ st.1.rows = 3 ∧ st.1.cols = p.width * p.height ∧
  ∀ u' v', v' < p.height → (u' < u ∨ (u' = u ∧ v' < v)) →
    st.1.coeff 0 (u' * p.height + v') = ((u' : α) - p.cx) / p.fx ∧
    st.1.coeff 1 (u' * p.height + v') = ((v' : α) - p.cy) / p.fy ∧
    st.1.coeff 2 (u' * p.height + v') = 1

end Deprojection

/-! ## The point cloud -/

/-- A pixel `cv::Vec3b`: three 8 bit channels in the image's native order. -/
structure Vec3b where
  c0 : Nat
  c1 : Nat
  c2 : Nat

/-- A colour image `cv::Mat`; `at_point x y` is `at<cv::Vec3b>(cv::Point2d(x, y))`. -/
structure CvMat where
  rows : Nat
  cols : Nat
  at_point : Nat → Nat → Vec3b

/-- The default constructed image `cv::Mat()`. -/
def CvMat.empty : CvMat := ⟨0, 0, fun _ _ => ⟨0, 0, 0⟩⟩

/-- A rigid transform `Eigen::Transform<double, 3, Affine>`: rotation part and translation. -/
structure Transform (α : Type) where
  linear : Nat → Nat → α
  translation : Nat → α

/-- The default constructed transform (contents unspecified). -/
def Transform.unset {α : Type} [Zero α] : Transform α := ⟨fun _ _ => 0, fun _ => 0⟩

/-- The point `T * p.homogeneous()`, row `r`: rotation applied to `p`, plus the translation. -/
def Transform.act {α : Type} [Add α] [Mul α] (T : Transform α) (p0 p1 p2 : α) (r : Nat) : α :=
  T.linear r 0 * p0 + T.linear r 1 * p1 + T.linear r 2 * p2 + T.translation r

/-- The assignment `m.topRows<3>() = T * m.topRows<3>().colwise().homogeneous()` (line 153). -/
def MatrixX.transformTopRows {α : Type} [Add α] [Mul α] (T : Transform α) (m : MatrixX α) :
    MatrixX α :=
  { m with coeff := fun r c =>
      if r < 3 ∧ c < m.cols then T.act (m.coeff 0 c) (m.coeff 1 c) (m.coeff 2 c) r
      else m.coeff r c }

/-- The frame accessors `rgb`, `depth` and `pose` of the camera (pure virtual in `Camera`), as
functions of the flag `blocking`, and the virtual accessor `auxiliary_data`, whose default is
`Camera::auxiliary_data` (lines 159-162): no data. -/
structure FrameAccess (α : Type) where
  rgb : Bool → Bool × CvMat
  depth : Bool → Bool × MatrixX α
  pose : Bool → Bool × Transform α
  auxiliary_data : Bool → Bool × List α := fun _ => (false, [])

/-- The method `Camera::deprojection_matrix` (lines 45-51). -/
def deprojection_matrix {α : Type} [Zero α] (cam : Camera α) : Bool × MatrixX α :=
  if !cam.deprojection_matrix_initialized_ then (false, MatrixX.empty)
  else (true, cam.deprojection_matrix_)

section PointCloud

variable {α : Type} [Zero α] [LT α] [DecidableRel (fun a b : α => a < b)]

/-- The body of the mask loop of `Camera::point_cloud` (lines 107-112). -/
def maskBody (depth : MatrixX α) (maximum_depth : α) (v : Nat) (valid_points : MatrixX Int)
    (u : Nat) : MatrixX Int :=
  let m0 := valid_points.set v u 0
  let depth_u_v := depth.coeff v u
  if depth_u_v > 0 ∧ depth_u_v < maximum_depth then m0.set v u 1 else m0

/-- The mask `valid_points` computed by lines 101-114 of `Camera::point_cloud`.  The iterations
of the parallel loop write distinct coefficients, so they are run in sequence, `v` outer and `u`
inner. -/
def valid_points (p : CameraParameters α) (depth : MatrixX α) (maximum_depth : α) : MatrixX Int :=
  forLoop p.height (fun m v => forLoop p.width (fun m u => maskBody depth maximum_depth v m u) m)
    (MatrixX.alloc p.height p.width)

variable [Mul α] [NatCast α]

/-- The body of the compaction loop of `Camera::point_cloud` (lines 134-148); the state is the
matrix `cloud` and the variable `counter`. -/
def cloudBody (p : CameraParameters α) (mask : MatrixX Int) (deprojection : MatrixX α)
    (depth : MatrixX α) (enable_colors : Bool) (rgb : CvMat) (v : Nat)
    (st : MatrixX α × Nat) (u : Nat) : MatrixX α × Nat :=
  if mask.coeff v u = 1 then
    let k := u * p.height + v
    let c0 := st.1.set 0 st.2 (deprojection.coeff 0 k * depth.coeff v u)
    let c1 := c0.set 1 st.2 (deprojection.coeff 1 k * depth.coeff v u)
    let c2 := c1.set 2 st.2 (deprojection.coeff 2 k * depth.coeff v u)
    let c5 :=
      if enable_colors then
        let cv_color := rgb.at_point u v
        ((c2.set 3 st.2 (cv_color.c2 : α)).set 4 st.2 (cv_color.c1 : α)).set 5 st.2
          (cv_color.c0 : α)
      else c2
    (c5, st.2 + 1)
  else st

/-- The state `(cloud, counter)` of the compaction loop of `Camera::point_cloud` on entry to
iteration `(v, u)` (lines 131-132: `v` outer, `u` inner), started from `init`. -/
def cloudStateBefore (p : CameraParameters α) (mask : MatrixX Int) (deprojection : MatrixX α)
    (depth : MatrixX α) (enable_colors : Bool) (rgb : CvMat) (init : MatrixX α × Nat)
    (v u : Nat) : MatrixX α × Nat :=
  forLoop u (fun st u => cloudBody p mask deprojection depth enable_colors rgb v st u)
    (forLoop v (fun st v => forLoop p.width
      (fun st u => cloudBody p mask deprojection depth enable_colors rgb v st u) st) init)

/-- The compaction loop of `Camera::point_cloud` (lines 127-149): allocation of `cloud`, then all
pixels `v` outer, `u` inner; the result is the final `(cloud, counter)`. -/
def cloudLoop (p : CameraParameters α) (mask : MatrixX Int) (deprojection : MatrixX α)
    (depth : MatrixX α) (enable_colors : Bool) (rgb : CvMat) (number_valids : Nat) :
    MatrixX α × Nat :=
  let number_rows := if enable_colors then 6 else 3
  forLoop p.height
    (fun st v => forLoop p.width
      (fun st u => cloudBody p mask deprojection depth enable_colors rgb v st u) st)
    (MatrixX.alloc number_rows number_valids, 0)

variable [Add α]

/-- The method `Camera::point_cloud` (lines 64-156). -/
def point_cloud (cam : Camera α) (acc : FrameAccess α) (blocking : Bool) (maximum_depth : α)
    (use_root_frame : Bool) (enable_colors : Bool) : Bool × MatrixX α :=
  let rgb := if enable_colors then acc.rgb blocking else (false, CvMat.empty)
  if enable_colors && !rgb.1 then (false, MatrixX.empty)
  else
    let depth := acc.depth blocking
    if !depth.1 then (false, MatrixX.empty)
    else
      let camera_pose := if use_root_frame then acc.pose blocking else (false, Transform.unset)
      if use_root_frame && !camera_pose.1 then (false, MatrixX.empty)
      else
        let mask := valid_points cam.parameters_ depth.2 maximum_depth
        let number_valids := mask.sum.toNat
        if number_valids = 0 then (false, MatrixX.empty)
        else
          let deprojection := deprojection_matrix cam
          if !deprojection.1 then (false, MatrixX.empty)
          else
            let st := cloudLoop cam.parameters_ mask deprojection.2 depth.2 enable_colors rgb.2
              number_valids
            let cloud := if use_root_frame then st.1.transformTopRows camera_pose.2 else st.1
            (true, cloud)

/-- The value of `counter` when the compaction loop of `point_cloud` reaches pixel `(u, v)`: the
output column into which that pixel is written if it is valid. -/
def column_of (cam : Camera α) (acc : FrameAccess α) (blocking : Bool) (maximum_depth : α)
    (enable_colors : Bool) (u v : Nat) : Nat :=
  let depth := (acc.depth blocking).2
  let mask := valid_points cam.parameters_ depth maximum_depth
  (cloudStateBefore cam.parameters_ mask (deprojection_matrix cam).2 depth enable_colors
    (if enable_colors then acc.rgb blocking else (false, CvMat.empty)).2
    (MatrixX.alloc (if enable_colors then 6 else 3) mask.sum.toNat, 0) v u).2

/-- The matrix `cloud` of `point_cloud` when its compaction loop ends, before the pose is
applied. -/
def filledCloud (cam : Camera α) (acc : FrameAccess α) (blocking : Bool) (maximum_depth : α)
    (enable_colors : Bool) : MatrixX α :=
  let depth := (acc.depth blocking).2
  let mask := valid_points cam.parameters_ depth maximum_depth
  (cloudLoop cam.parameters_ mask cam.deprojection_matrix_ depth enable_colors
    (if enable_colors then acc.rgb blocking else (false, CvMat.empty)).2 mask.sum.toNat).1

/-- A pixel `(u, v)` of the depth frame is valid: `0 < depth(v, u) < maximum_depth`. -/
def ValidDepth (depth : MatrixX α) (maximum_depth : α) (u v : Nat) : Prop :=
  depth.coeff v u > 0 ∧ depth.coeff v u < maximum_depth

instance (depth : MatrixX α) (maximum_depth : α) (u v : Nat) :
    Decidable (ValidDepth depth maximum_depth u v) :=
  inferInstanceAs (Decidable (depth.coeff v u > 0 ∧ depth.coeff v u < maximum_depth))

/-- The set of valid pixels `(u, v)` of a `height x width` depth frame. -/
def validPixels (p : CameraParameters α) (depth : MatrixX α) (maximum_depth : α) :
    Finset (Nat × Nat) :=
  (Finset.range p.width ×ˢ Finset.range p.height).filter
    (fun q => ValidDepth depth maximum_depth q.1 q.2)

/-- Pixel `q = (u', v')` is visited by the compaction loop of `point_cloud` before iteration
`(v, u)`. -/
def ScanBefore (v u : Nat) (q : Nat × Nat) : Prop := q.2 < v ∨ (q.2 = v ∧ q.1 < u)

instance (v u : Nat) : DecidablePred (ScanBefore v u) :=
  fun q => inferInstanceAs (Decidable (q.2 < v ∨ (q.2 = v ∧ q.1 < u)))

/-- The number of valid pixels visited before iteration `(v, u)`. -/
def validBefore (p : CameraParameters α) (depth : MatrixX α) (maximum_depth : α) (v u : Nat) :
    Nat :=
  ((validPixels p depth maximum_depth).filter (ScanBefore v u)).card

/-- Column `c` of `m` holds the point (and the colour, when enabled) of pixel `q = (u, v)`. -/
def ColumnHolds (p : CameraParameters α) (deprojection : MatrixX α) (depth : MatrixX α)
    (enable_colors : Bool) (rgb : CvMat) (m : MatrixX α) (c : Nat) (q : Nat × Nat) : Prop :=
  (∀ r, r < 3 → m.coeff r c = deprojection.coeff r (q.1 * p.height + q.2) * depth.coeff q.2 q.1) ∧
  (enable_colors = true →
    m.coeff 3 c = ((rgb.at_point q.1 q.2).c2 : α) ∧
    m.coeff 4 c = ((rgb.at_point q.1 q.2).c1 : α) ∧
    m.coeff 5 c = ((rgb.at_point q.1 q.2).c0 : α))

/-- The invariant of the compaction loop of `point_cloud` on entry to iteration `(v, u)`: `counter`
is the number of valid pixels visited so far, the shape of `cloud` is fixed and every valid pixel
visited so far is held by the column whose index was the value of `counter` at its visit. -/
def CloudInv (p : CameraParameters α) (deprojection : MatrixX α) (depth : MatrixX α)
    (maximum_depth : α) (enable_colors : Bool) (rgb : CvMat) (v u : Nat)
    (st : MatrixX α × Nat) : Prop :=
  st.2 = validBefore p depth maximum_depth v u ∧
  st.1.rows = (if enable_colors then 6 else 3) ∧
  st.1.cols = (validPixels p depth maximum_depth).card ∧
  ∀ q ∈ validPixels p depth maximum_depth, ScanBefore v u q →
    ColumnHolds p deprojection depth enable_colors rgb st.1
      (validBefore p depth maximum_depth q.2 q.1) q

end PointCloud

/-! ## Frame sequencing -/

/-- The method `Camera::status` (lines 28-31). -/
def status {α : Type} (cam : Camera α) : Bool := cam.status_

/-- The method `Camera::is_offline` (lines 180-183). -/
def is_offline {α : Type} (cam : Camera α) : Bool := cam.offline_mode_

/-- The method `Camera::reset` (lines 34-42). -/
def reset {α : Type} (cam : Camera α) : Bool × Camera α :=
  let cam1 := if is_offline cam then { cam with frame_index_ := -1 } else cam
  (true, { cam1 with status_ := true })

/-- The method `Camera::step_frame` (lines 197-212).  Both `frame_index_++` and
`frame_index_ + 1` are 32 bit signed additions; `data_.cols()` is a 64 bit signed integer. -/
def step_frame {α : Type} (cam : Camera α) : Bool × Camera α :=
  if is_offline cam then
    let cam1 := { cam with frame_index_ := wrapInt32 (cam.frame_index_ + 1) }
    if wrapInt32 (cam1.frame_index_ + 1) > (cam1.data_.cols : Int) then
      (false, { cam1 with status_ := false })
    else (true, cam1)
  else (true, cam)

/-- The method `Camera::frame_index` (lines 171-177). -/
def frame_index {α : Type} (cam : Camera α) : Int :=
  if is_offline cam then cam.frame_index_ else -1

/-- The method `Camera::set_frame_index` (lines 186-194); `index` is a `std::int32_t`. -/
def set_frame_index {α : Type} (cam : Camera α) (index : Int) : Bool × Camera α :=
  (true, { cam with frame_index_ := if index < 0 then -1 else index })

/-- The camera after `k` consecutive calls of `step_frame`. -/
def step_frames {α : Type} (k : Nat) (cam : Camera α) : Camera α :=
  forLoop k (fun c _ => (step_frame c).2) cam

/-! ## The offline dataset and the recorder -/

/-- A vector of three coefficients (`Eigen::Vector3d`). -/
structure Vector3 (α : Type) where
  x : α
  y : α
  z : α

/-- A rotation as axis and angle (`Eigen::AngleAxisd`). -/
structure AngleAxis (α : Type) where
  axis : Vector3 α
  angle : α

/-- The primitives of the standard library and of the matrix library that the loader and the
recorder call on numbers. -/
structure Primitives (α : Type) where
  /-- The call `std::stod(word)`: the number read, `none` when it throws. -/
  stod : List Char → Option α
  /-- The text that `operator<<` prints for a coefficient at full precision. -/
  put_double : α → List Char
  /-- The text that `log_ << log_index_` prints. -/
  put_index : Nat → List Char
  /-- The call `std::to_string(log_index_)`. -/
  to_string : Nat → List Char
  /-- The conversion `AngleAxisd(camera_pose.rotation())`. -/
  angle_axis : Transform α → AngleAxis α
  /-- The call `pose.rotate(angle_axis)`: the transform `pose` followed by the rotation. -/
  rotate : Transform α → AngleAxis α → Transform α

/-- The predicate `std::isspace` of the "C" locale: space, tab, line feed, vertical tab, form feed
and carriage return. -/
def isspace (c : Char) : Bool :=
  c = ' ' || c = Char.ofNat 9 || c = Char.ofNat 10 || c = Char.ofNat 11 || c = Char.ofNat 12 ||
    c = Char.ofNat 13

/-- The words of the rest of a line, `cur` being the characters of the word under way. -/
def wordsAux : List Char → List Char → List (List Char)
  | [], cur => if cur.isEmpty then [] else [cur]
  | c :: cs, cur =>
    if isspace c then (if cur.isEmpty then wordsAux cs [] else cur :: wordsAux cs [])
    else wordsAux cs (cur ++ [c])

/-- The words that the successive extractions `iss >> number_str` deliver from a line, until the
extraction fails: the maximal runs of characters that are not white space. -/
def words (line : List Char) : List (List Char) := wordsAux line []

/-- Modelled from the spec: the constant `standard_data_offset_` of `Camera.h`, the number of
fields before the auxiliary data: 1 (frame index) + 3 (position) + 4 (axis and angle). -/
def standard_data_offset_ : Nat := 1 + 3 + 4

/-- The assignment `*(m.data() + index) = x` into the column-major storage of `m`, for an `index`
inside the storage.  The source stores through the raw pointer whatever `index` is; a store past
the end of the storage is outside the table and undefined in the source.  Here such a store
leaves the table as it is, and `load_data_writes` lists the index of every store, so that the
results on what `load_data` returns can be confined, by `StoresInTable`, to the calls whose
stores are all inside the storage. -/
def MatrixX.writeLinear {α : Type} (m : MatrixX α) (index : Nat) (x : α) : MatrixX α :=
  if index < m.rows * m.cols then m.set (index % m.rows) (index / m.rows) x else m

/-- The loop `while (iss >> number_str)` of `Camera::load_data` (lines 481-486) over the words of
a line; the state is the table and `found_fields`; `none` when `std::stod` throws. -/
def readFields {α : Type} (stod : List Char → Option α) (num_fields found_lines : Nat) :
    List (List Char) → MatrixX α × Nat → Option (MatrixX α × Nat)
  | [], st => some st
  | number_str :: rest, st =>
    match stod number_str with
    | none => none
    | some x =>
      readFields stod num_fields found_lines rest
        (st.1.writeLinear (num_fields * found_lines + st.2) x, st.2 + 1)

/-- The loop over the lines of `Camera::load_data` (lines 475-494), from line `found_lines` on;
`none` when `std::stod` throws. -/
def loadLines {α : Type} [Zero α] (stod : List Char → Option α) (num_fields : Nat) :
    List (List Char) → MatrixX α → Nat → Option (Bool × MatrixX α)
  | [], data, _ => some (true, data)
  | line :: rest, data, found_lines =>
    match readFields stod num_fields found_lines (words line) (data, 0) with
    | none => none
    | some st =>
      if num_fields ≠ st.2 then some (false, MatrixX.empty)
      else loadLines stod num_fields rest st.1 (found_lines + 1)

/-- The method `Camera::load_data` (lines 451-500).  `auxiliary_data_size` is the value of the
virtual method of that name; `file` is the content of `data.txt`, the list of the lines that
`std::getline` delivers, or `none` when the file cannot be opened; the result is `none` when
`std::stod` throws. -/
def load_data {α : Type} [Zero α] (prims : Primitives α) (auxiliary_data_size : Nat)
    (file : Option (List (List Char))) : Option (Bool × MatrixX α) :=
  let num_fields := standard_data_offset_ + auxiliary_data_size
  match file with
  | none => some (false, MatrixX.empty)
  | some istrm_strings =>
    let data := (MatrixX.empty : MatrixX α).resize num_fields istrm_strings.length
    loadLines prims.stod num_fields istrm_strings data 0

/-- The loop `while (iss >> number_str)` of `Camera::load_data` (lines 481-486) as `readFields`,
with the trace of the linear indices `index` at which `*(data.data() + index)` is stored,
appended to `trace` in the order of the stores. -/
def readFieldsTraced {α : Type} (stod : List Char → Option α) (num_fields found_lines : Nat) :
    List (List Char) → MatrixX α × Nat → List Nat → Option (MatrixX α × Nat) × List Nat
  | [], st, trace => (some st, trace)
  | number_str :: rest, st, trace =>
    match stod number_str with
    | none => (none, trace)
    | some x =>
      readFieldsTraced stod num_fields found_lines rest
        (st.1.writeLinear (num_fields * found_lines + st.2) x, st.2 + 1)
        (trace ++ [num_fields * found_lines + st.2])

/-- The loop over the lines of `Camera::load_data` (lines 475-494) as `loadLines`, with the trace
of the stores. -/
def loadLinesTraced {α : Type} [Zero α] (stod : List Char → Option α) (num_fields : Nat) :
    List (List Char) → MatrixX α → Nat → List Nat → Option (Bool × MatrixX α) × List Nat
  | [], data, _, trace => (some (true, data), trace)
  | line :: rest, data, found_lines, trace =>
    let r := readFieldsTraced stod num_fields found_lines (words line) (data, 0) trace
    match r.1 with
    | none => (none, r.2)
    | some st =>
      if num_fields ≠ st.2 then (some (false, MatrixX.empty), r.2)
      else loadLinesTraced stod num_fields rest st.1 (found_lines + 1) r.2

/-- The method `Camera::load_data` (lines 451-500) as `load_data`, with the trace of the stores
into the table. -/
def load_data_traced {α : Type} [Zero α] (prims : Primitives α) (auxiliary_data_size : Nat)
    (file : Option (List (List Char))) : Option (Bool × MatrixX α) × List Nat :=
  let num_fields := standard_data_offset_ + auxiliary_data_size
  match file with
  | none => (some (false, MatrixX.empty), [])
  | some istrm_strings =>
    let data := (MatrixX.empty : MatrixX α).resize num_fields istrm_strings.length
    loadLinesTraced prims.stod num_fields istrm_strings data 0 []

/-- The linear indices of the elements that `load_data` writes into the table, in order. -/
def load_data_writes {α : Type} [Zero α] (prims : Primitives α) (auxiliary_data_size : Nat)
    (file : Option (List (List Char))) : List Nat :=
  (load_data_traced prims auxiliary_data_size file).2

/-- Every store of the call `load_data` on the text `lines` is inside the storage of the
`num_fields x m` table, `m` the number of lines: the call writes no element past its end. -/
def StoresInTable {α : Type} [Zero α] (prims : Primitives α) (auxiliary_data_size : Nat)
    (lines : List (List Char)) : Prop :=
  ∀ index ∈ load_data_writes prims auxiliary_data_size (some lines),
    index < (standard_data_offset_ + auxiliary_data_size) * lines.length

/-- The column `m.col(c)` for a signed index `c`; a coefficient read before the storage is
unspecified (zero here). -/
def MatrixX.col {α : Type} [Zero α] (m : MatrixX α) (c : Int) : Nat → α :=
  fun r => if 0 ≤ c then m.coeff r c.toNat else 0

/-- The transform `Translation<double, 3>(position)`. -/
def Transform.ofTranslation {α : Type} [Zero α] [One α] (position : Vector3 α) : Transform α :=
  ⟨fun r c => if r = c then 1 else 0,
   fun r => if r = 0 then position.x else if r = 1 then position.y else position.z⟩

/-- The method `Camera::pose_offline` (lines 408-421). -/
def pose_offline {α : Type} [Zero α] [One α] (prims : Primitives α) (cam : Camera α) :
    Bool × Transform α :=
  let data := cam.data_.col cam.frame_index_
  let position : Vector3 α := ⟨data 1, data (1 + 1), data (1 + 2)⟩
  let axis_angle : Nat → α := fun i => data (1 + 3 + i)
  let angle_axis : AngleAxis α := ⟨⟨axis_angle 0, axis_angle 1, axis_angle 2⟩, axis_angle 3⟩
  let pose := Transform.ofTranslation position
  (true, prims.rotate pose angle_axis)

/-- The method `Camera::auxiliary_data_offline` (lines 440-448). -/
def auxiliary_data_offline {α : Type} [Zero α] (auxiliary_data_size : Nat) (cam : Camera α) :
    Bool × List α :=
  let data := cam.data_.col cam.frame_index_
  if auxiliary_data_size = 0 then (false, [])
  else (true, (List.range auxiliary_data_size).map (fun i => data (standard_data_offset_ + i)))

/-- Texts joined by the coefficient separator `" "`. -/
def joinCoeffs : List (List Char) → List Char
  | [] => []
  | [s] => s
  | s :: t :: rest => s ++ ' ' :: joinCoeffs (t :: rest)

/-- The text of `row.format(IOFormat(FullPrecision))` for a row vector: the coefficients, each
padded on the left with spaces to the width of the widest, separated by `" "`. -/
def formatRow {α : Type} (put_double : α → List Char) (row : List α) : List Char :=
  let width := (row.map (fun x => (put_double x).length)).foldl max 0
  joinCoeffs (row.map (fun x => List.replicate (width - (put_double x).length) ' ' ++ put_double x))

/-- The line that `Camera::log_frame` writes (lines 255-261), without the final `std::endl`. -/
def logLine {α : Type} (prims : Primitives α) (log_index : Nat) (camera_pose : Transform α)
    (aux : Bool × List α) : List Char :=
  let angle_axis := prims.angle_axis camera_pose
  prims.put_index log_index ++ ' ' ::
    (formatRow prims.put_double
        [camera_pose.translation 0, camera_pose.translation 1, camera_pose.translation 2] ++ ' ' ::
      (formatRow prims.put_double [angle_axis.axis.x, angle_axis.axis.y, angle_axis.axis.z] ++ ' ' ::
        (formatRow prims.put_double [angle_axis.angle] ++
          (if aux.1 then ' ' :: formatRow prims.put_double aux.2 else []))))

/-- The method `Camera::log_frame` (lines 215-268).  The third component of the result lists the
image files that `cv::imwrite` writes: name and image. -/
def log_frame {α : Type} (prims : Primitives α) (cam : Camera α) (acc : FrameAccess α)
    (log_depth : Bool) : Bool × Camera α × List (List Char × CvMat) :=
  let rgb := acc.rgb true
  if !rgb.1 then (false, cam, [])
  else
    let valid_depth := false
    let cam0 := if log_depth then cam else cam
    let pose := acc.pose true
    if !pose.1 then (false, cam0, [])
    else
      let aux := acc.auxiliary_data true
      let files1 :=
        if rgb.1 then
          [(cam0.log_path_ ++ "rgb_".toList ++ prims.to_string cam0.log_index_ ++ ".png".toList,
            rgb.2)]
        else []
      let files2 := if valid_depth then files1 else files1
      let log1 := cam0.log_.putLine (logLine prims cam0.log_index_ pose.2 aux)
      (true, { cam0 with log_ := log1, log_index_ := cam0.log_index_ + 1 }, files2)

/-- The method `Camera::start_log` (lines 271-282); `opens` tells whether the file `data.txt`
under the path can be opened.  The result is `log_.is_open()` after the call `log_.open`: on a
camera whose log is already open it is `true` although the call `log_.open` has failed. -/
def start_log {α : Type} (cam : Camera α) (path : List Char) (opens : Bool) : Bool × Camera α :=
  let log_path := if path.getLast? ≠ some '/' then path ++ ['/'] else path
  let log := cam.log_.open_ opens
  (log.is_open, { cam with log_path_ := log_path, log_ := log, log_index_ := 0 })

/-- The camera after the successive calls `log_frame(log_depth)`, one for each element of `frames`:
the accessors at the time of the call and the flag. -/
def log_frames {α : Type} (prims : Primitives α) (cam : Camera α)
    (frames : List (FrameAccess α × Bool)) : Camera α :=
  frames.foldl (fun c f => (log_frame prims c f.1 f.2).2.1) cam

/-- Every field of every line of a dataset text is a number: `std::stod` reads it. -/
def NumericFields {α : Type} (stod : List Char → Option α) (lines : List (List Char)) : Prop :=
  ∀ line ∈ lines, ∀ w ∈ words line, (stod w).isSome = true

/-- A printed text is one word: not empty and free of white space. -/
def IsWord (s : List Char) : Prop := s ≠ [] ∧ ∀ c ∈ s, isspace c = false

/-- The rest of a line is empty or starts with white space. -/
def SpaceLed (s : List Char) : Prop := ∀ c ∈ s.head?, isspace c = true

/-- The lines that `log_frame` writes for the frames `frames`, the counter starting at
`log_index`. -/
def expectedLines {α : Type} (prims : Primitives α) :
    Nat → List (FrameAccess α × Bool) → List (List Char)
  | _, [] => []
  | log_index, f :: rest =>
    logLine prims log_index (f.1.pose true).2 (f.1.auxiliary_data true) ::
      expectedLines prims (log_index + 1) rest

/-- The fields of the line that `log_frame` writes: counter, translation, axis, angle and, when
delivered, the auxiliary data. -/
def logFields {α : Type} (prims : Primitives α) (log_index : Nat) (camera_pose : Transform α)
    (aux : Bool × List α) : List (List Char) :=
  prims.put_index log_index ::
    ([camera_pose.translation 0, camera_pose.translation 1, camera_pose.translation 2].map
        prims.put_double ++
      ([(prims.angle_axis camera_pose).axis.x, (prims.angle_axis camera_pose).axis.y,
          (prims.angle_axis camera_pose).axis.z].map prims.put_double ++
        ([(prims.angle_axis camera_pose).angle].map prims.put_double ++
          (if aux.1 then aux.2.map prims.put_double else []))))

/-- An offline camera over the integers whose frame table has `n` columns, at frame index `i`. -/
def offlineCamera (n : Nat) (i : Int) : Camera ℤ :=
  { status_ := true
    parameters_ := { width := 2, height := 2, fx := 1, cx := 0, fy := 1, cy := 0,
                     initialized := true }
    deprojection_matrix_ := MatrixX.empty
    deprojection_matrix_initialized_ := false
    offline_mode_ := true
    frame_index_ := i
    data_ := ⟨8, n, fun _ _ => 0⟩ }

/-! ## Concrete inputs -/

/-- A camera with a `2 x 2` image, `fx = fy = 2` and `cx = cy = 1`, before initialization of the
deprojection matrix. -/
def camera2x2 : Camera ℚ :=
  { status_ := true
    parameters_ := { width := 2, height := 2, fx := 2, cx := 1, fy := 2, cy := 1,
                     initialized := true }
    deprojection_matrix_ := MatrixX.empty
    deprojection_matrix_initialized_ := false
    offline_mode_ := false
    frame_index_ := -1
    data_ := MatrixX.empty }

/-- A camera over the integers with a `2 x 2` image, `fx = fy = 1` and `cx = cy = 0`, before the
deprojection matrix is evaluated. -/
def intCamera0 : Camera ℤ :=
  { status_ := true
    parameters_ := { width := 2, height := 2, fx := 1, cx := 0, fy := 1, cy := 0,
                     initialized := true }
    deprojection_matrix_ := MatrixX.empty
    deprojection_matrix_initialized_ := false
    offline_mode_ := false
    frame_index_ := -1
    data_ := MatrixX.empty }

/-- The camera `intCamera0` after `evaluate_deprojection_matrix`. -/
def intCamera : Camera ℤ :=
  match evaluate_deprojection_matrix intCamera0 with
  | some r => r.2
  | none => intCamera0

/-- A `2 x 2` colour image whose channels encode the pixel position. -/
def intImage : CvMat :=
  ⟨2, 2, fun x y => ⟨10 * x + y, 100 + 10 * x + y, 200 + 10 * x + y⟩⟩

/-- A `2 x 2` depth frame: depth `0` at row 0, column 0, depth `2 + v` elsewhere. -/
def intDepth : MatrixX ℤ := ⟨2, 2, fun v u => if v = 0 ∧ u = 0 then 0 else 2 + v⟩

/-- The pose "quarter turn about the z axis, then translation by `(1, 2, 3)`". -/
def intPose : Transform ℤ :=
  ⟨fun r c => if r = 0 ∧ c = 1 then -1 else if (r = 1 ∧ c = 0) ∨ (r = 2 ∧ c = 2) then 1 else 0,
   fun r => r + 1⟩

/-- Accessors that deliver `intImage`, `intDepth` and `intPose`. -/
def intFrames : FrameAccess ℤ :=
  { rgb := fun _ => (true, intImage)
    depth := fun _ => (true, intDepth)
    pose := fun _ => (true, intPose) }

/-- Accessors that deliver `intDepth` only: colour and pose are unavailable. -/
def intFramesDepthOnly : FrameAccess ℤ :=
  { rgb := fun _ => (false, CvMat.empty)
    depth := fun _ => (true, intDepth)
    pose := fun _ => (false, Transform.unset) }

/-- Accessors that deliver an all-zero `2 x 2` depth frame. -/
def intFramesZeroDepth : FrameAccess ℤ :=
  { rgb := fun _ => (true, intImage)
    depth := fun _ => (true, ⟨2, 2, fun _ _ => 0⟩)
    pose := fun _ => (true, intPose) }

/-- Accessors that deliver `intImage` and `intPose` and no auxiliary data. -/
def intLogFrames : FrameAccess ℤ :=
  { rgb := fun _ => (true, intImage)
    depth := fun _ => (false, MatrixX.empty)
    pose := fun _ => (true, intPose) }

/-- The character of the decimal digit `d`. -/
def digitChar (d : Nat) : Char := Char.ofNat (48 + d)

/-- The character is a decimal digit. -/
def isdigit (c : Char) : Bool := 48 ≤ c.toNat && c.toNat ≤ 57

/-- The decimal text of a natural number. -/
def putNat (n : Nat) : List Char :=
  if n = 0 then ['0'] else (Nat.digits 10 n).reverse.map digitChar

/-- The natural number that a text of decimal digits denotes; `none` for any other text. -/
def parseNat (s : List Char) : Option Nat :=
  if s.isEmpty || !s.all isdigit then none
  else some (Nat.ofDigits 10 (s.reverse.map (fun c => c.toNat - 48)))

/-- The decimal text of an integer. -/
def putInt (z : Int) : List Char :=
  if z < 0 then '-' :: putNat z.natAbs else putNat z.natAbs

/-- The integer that a decimal text denotes; `none` for any other text. -/
def parseInt (s : List Char) : Option Int :=
  if s.head? = some '-' then (parseNat s.tail).map (fun n => -(n : Int))
  else (parseNat s).map (fun n => (n : Int))

/-- Primitives over the integers: decimal printing and reading; the two conversions between
rotations and axis-angle pairs are stand-ins that only move coefficients. -/
def intPrims : Primitives ℤ :=
  { stod := parseInt
    put_double := putInt
    put_index := putNat
    to_string := putNat
    angle_axis := fun T => ⟨⟨T.linear 2 1, T.linear 0 2, T.linear 1 0⟩, T.linear 0 0⟩
    rotate := fun T aa =>
      ⟨fun r c => if r = c then aa.angle
          else if r = 2 ∧ c = 1 then aa.axis.x
          else if r = 0 ∧ c = 2 then aa.axis.y
          else if r = 1 ∧ c = 0 then aa.axis.z else T.linear r c,
        T.translation⟩ }

/-- A dataset text of two well-formed lines of 8 fields. -/
def goodText : List (List Char) := ["0 1 2 3 0 0 1 90".toList, "1 4 5 6 1 0 0 -45".toList]

/-- A dataset text whose second line has 4 fields. -/
def shortLineText : List (List Char) := ["0 1 2 3 0 0 1 90".toList, "1 4 5 6".toList]

/-- A dataset text whose single line has 9 fields. -/
def longLineText : List (List Char) := ["0 1 2 3 0 0 1 90 7".toList]

/-- A dataset text of two lines whose first line has 9 fields. -/
def overfullLineText : List (List Char) :=
  ["0 1 2 3 0 0 1 90 7".toList, "1 4 5 6 1 0 0 -45".toList]

/-- A dataset text whose single line has 4 fields, the last of which is not a number. -/
def nonNumericText : List (List Char) := ["0 1 2 abc".toList]

/-- A camera over the rationals with a `2 x 2` image, `fx = fy = 1` and `cx = cy = 0`, before the
deprojection matrix is evaluated. -/
def ratCamera0 : Camera ℚ :=
  { status_ := true
    parameters_ := { width := 2, height := 2, fx := 1, cx := 0, fy := 1, cy := 0,
                     initialized := true }
    deprojection_matrix_ := MatrixX.empty
    deprojection_matrix_initialized_ := false
    offline_mode_ := false
    frame_index_ := -1
    data_ := MatrixX.empty }

/-- The camera `ratCamera0` after `evaluate_deprojection_matrix`. -/
def ratCamera : Camera ℚ :=
  match evaluate_deprojection_matrix ratCamera0 with
  | some r => r.2
  | none => ratCamera0

/-- Accessors that deliver a `2 x 2` depth frame with depth `2` at pixel `(0, 0)` and `0`
elsewhere; colour and pose are unavailable. -/
def ratFrames : FrameAccess ℚ :=
  { rgb := fun _ => (false, CvMat.empty)
    depth := fun _ => (true, ⟨2, 2, fun v u => if v = 0 ∧ u = 0 then 2 else 0⟩)
    pose := fun _ => (false, Transform.unset) }

/-! ## Lemmas on the primitives -/

theorem forLoop_succ {σ : Type} (n : Nat) (body : σ → Nat → σ) (init : σ) :
    forLoop (n + 1) body init = body (forLoop n body init) n := rfl

/-- Invariant rule for the inner loop of a nest: `P a b s` reads "`s` is the state on entry to
iteration `(a, b)`". -/
theorem forLoop_inner_inv {σ : Type} (m : Nat) (body : Nat → σ → Nat → σ)
    (P : Nat → Nat → σ → Prop) (a : Nat)
    (hstep : ∀ b s, b < m → P a b s → P a (b + 1) (body a s b))
    (s : σ) (hs : P a 0 s) :
    ∀ b, b ≤ m → P a b (forLoop b (body a) s) := by
  intro b
  induction b with
  | zero => intro _; exact hs
  | succ b ih =>
    intro hb
    rw [forLoop_succ]
    exact hstep b _ (by omega) (ih (by omega))

/-- Invariant rule for a nest of two loops. -/
theorem forLoop_nest_inv {σ : Type} (n m : Nat) (body : Nat → σ → Nat → σ)
    (P : Nat → Nat → σ → Prop) (init : σ) (h0 : P 0 0 init)
    (hstep : ∀ a b s, a < n → b < m → P a b s → P a (b + 1) (body a s b))
    (hrow : ∀ a s, a < n → P a m s → P (a + 1) 0 s) :
    ∀ a, a ≤ n → P a 0 (forLoop a (fun s a => forLoop m (body a) s) init) := by
  intro a
  induction a with
  | zero => intro _; exact h0
  | succ a ih =>
    intro ha
    rw [forLoop_succ]
    exact hrow a _ (by omega)
      (forLoop_inner_inv m body P a (fun b s hb hP => hstep a b s (by omega) hb hP) _
        (ih (by omega)) m le_rfl)

theorem wrapInt32_of_range (z : Int) (h0 : -2147483648 ≤ z) (h1 : z < 2147483648) :
    wrapInt32 z = z := by
  unfold wrapInt32
  omega

namespace MatrixX

variable {α : Type}

@[simp] theorem rows_set (m : MatrixX α) (r c : Nat) (x : α) : (m.set r c x).rows = m.rows := by
  unfold set; split <;> rfl

@[simp] theorem cols_set (m : MatrixX α) (r c : Nat) (x : α) : (m.set r c x).cols = m.cols := by
  unfold set; split <;> rfl

theorem coeff_set (m : MatrixX α) (r c : Nat) (x : α) (hr : r < m.rows) (hc : c < m.cols)
    (i j : Nat) :
    (m.set r c x).coeff i j = if i = r ∧ j = c then x else m.coeff i j := by
  unfold set
  rw [if_pos ⟨hr, hc⟩]

theorem coeff_set_ne_col (m : MatrixX α) (r c : Nat) (x : α) (i j : Nat) (h : j ≠ c) :
    (m.set r c x).coeff i j = m.coeff i j := by
  unfold set
  split
  · simp [h]
  · rfl

theorem coeff_set_ne_row (m : MatrixX α) (r c : Nat) (x : α) (i j : Nat) (h : i ≠ r) :
    (m.set r c x).coeff i j = m.coeff i j := by
  unfold set
  split
  · simp [h]
  · rfl

theorem coeff_set_same (m : MatrixX α) (r c : Nat) (x : α) (hr : r < m.rows) (hc : c < m.cols) :
    (m.set r c x).coeff r c = x := by
  rw [coeff_set m r c x hr hc]
  simp

theorem setI_natCast (m : MatrixX α) (r k : Nat) (x : α) : m.setI r (k : Int) x = m.set r k x := by
  unfold setI
  rw [if_pos (Int.ofNat_nonneg k), Int.toNat_ofNat]

end MatrixX

theorem lin_index_lt {u v w h : Nat} (hu : u < w) (hv : v < h) : u * h + v < w * h := by
  have h1 : (u + 1) * h ≤ w * h := Nat.mul_le_mul_right h hu
  have h2 : (u + 1) * h = u * h + h := by ring
  omega

theorem lin_index_ne {a b a' b' m : Nat} (hb' : b' < m) (h : a' < a) : a' * m + b' ≠ a * m + b := by
  have h1 : (a' + 1) * m ≤ a * m := Nat.mul_le_mul_right m h
  have h2 : (a' + 1) * m = a' * m + m := by ring
  omega

/-! ## The deprojection matrix -/

section DeprojectionProofs

variable {α : Type} [NatCast α] [Sub α] [Div α] [One α]

theorem deprojBody_inv (p : CameraParameters α) (hsz : p.width * p.height < 2147483648)
    (a b : Nat) (s : MatrixX α × Int) (ha : a < p.width) (hb : b < p.height)
    (h : DeprojInv p a b s) : DeprojInv p a (b + 1) (deprojBody p a s b) := by
  obtain ⟨hi, hr, hc, hcol⟩ := h
  have hk : a * p.height + b < p.width * p.height := lin_index_lt ha hb
  unfold deprojBody
  simp only [hi, MatrixX.setI_natCast]
  refine ⟨?_, by simp [hr], by simp [hc], ?_⟩
  · rw [wrapInt32_of_range _ (by omega) (by omega)]
    push_cast
    ring
  · intro u' v' hv' hlt
    have hset : ∀ (m : MatrixX α) (r : Nat) (x : α), m.rows = 3 → m.cols = p.width * p.height →
        r < 3 → ∀ i j, (m.set r (a * p.height + b) x).coeff i j
          = if i = r ∧ j = a * p.height + b then x else m.coeff i j := by
      intro m r x hmr hmc hr3 i j
      exact MatrixX.coeff_set m r _ x (by omega) (by omega) i j
    rw [hset _ 2 _ (by simp [hr]) (by simp [hc]) (by omega),
      hset _ 2 _ (by simp [hr]) (by simp [hc]) (by omega),
      hset _ 2 _ (by simp [hr]) (by simp [hc]) (by omega),
      hset _ 1 _ (by simp [hr]) (by simp [hc]) (by omega),
      hset _ 1 _ (by simp [hr]) (by simp [hc]) (by omega),
      hset _ 1 _ (by simp [hr]) (by simp [hc]) (by omega),
      hset _ 0 _ hr hc (by omega), hset _ 0 _ hr hc (by omega), hset _ 0 _ hr hc (by omega)]
    by_cases hEq : u' * p.height + v' = a * p.height + b
    · have hu : u' = a := by
        rcases hlt with h | h
        · exact absurd hEq (lin_index_ne hv' h)
        · exact h.1
      subst hu
      have hv : v' = b := by omega
      subst hv
      simp
    · simp only [hEq, and_false, if_false]
      refine hcol u' v' hv' ?_
      rcases hlt with h | h
      · exact Or.inl h
      · refine Or.inr ⟨h.1, ?_⟩
        rcases h with ⟨h1, h2⟩
        subst h1
        omega

theorem deproj_row_inv (p : CameraParameters α) (a : Nat) (s : MatrixX α × Int)
    (h : DeprojInv p a p.height s) : DeprojInv p (a + 1) 0 s := by
  obtain ⟨hi, hr, hc, hcol⟩ := h
  refine ⟨?_, hr, hc, ?_⟩
  · rw [hi]
    push_cast
    ring
  · intro u' v' hv' hlt
    refine hcol u' v' hv' ?_
    rcases hlt with h | h
    · rcases Nat.lt_succ_iff_lt_or_eq.mp h with h1 | h1
      · exact Or.inl h1
      · exact Or.inr ⟨h1, hv'⟩
    · exact absurd h.2 (Nat.not_lt_zero _)

theorem deproj_loop_inv (p : CameraParameters α) (hsz : p.width * p.height < 2147483648)
    (m : MatrixX α) :
    DeprojInv p p.width 0
      (forLoop p.width (fun st u => forLoop p.height (fun st v => deprojBody p u st v) st)
        (m.resize 3 (p.width * p.height), (0 : Int))) := by
  refine forLoop_nest_inv p.width p.height (fun u st v => deprojBody p u st v) (DeprojInv p)
    _ ?_ (fun a b s ha hb h => deprojBody_inv p hsz a b s ha hb h)
    (fun a s _ h => deproj_row_inv p a s h) p.width le_rfl
  refine ⟨by simp, rfl, rfl, ?_⟩
  intro u' v' _ hlt
  rcases hlt with h | h
  · exact absurd h (Nat.not_lt_zero _)
  · exact absurd h.2 (Nat.not_lt_zero _)

/-- What a returned `evaluate_deprojection_matrix` leaves in the camera: the parameters are
untouched and the columns hold the rays. -/
theorem evaluate_deprojection_matrix_columns (cam0 cam : Camera α) (b : Bool)
    (hev : evaluate_deprojection_matrix cam0 = some (b, cam))
    (hsz : cam0.parameters_.width * cam0.parameters_.height < 2147483648) :
    cam.parameters_ = cam0.parameters_ ∧
    ∀ u v, u < cam0.parameters_.width → v < cam0.parameters_.height →
      cam.deprojection_matrix_.coeff 0 (u * cam0.parameters_.height + v)
          = ((u : α) - cam0.parameters_.cx) / cam0.parameters_.fx ∧
      cam.deprojection_matrix_.coeff 1 (u * cam0.parameters_.height + v)
          = ((v : α) - cam0.parameters_.cy) / cam0.parameters_.fy ∧
      cam.deprojection_matrix_.coeff 2 (u * cam0.parameters_.height + v) = 1 := by
  obtain ⟨_, _, _, hcol⟩ := deproj_loop_inv cam0.parameters_ hsz cam0.deprojection_matrix_
  unfold evaluate_deprojection_matrix at hev
  split at hev
  · exact absurd hev (by simp)
  · simp only [Option.some.injEq, Prod.mk.injEq] at hev
    rw [← hev.2]
    exact ⟨rfl, fun u v hu hv => hcol u v hv (Or.inl hu)⟩

/-- Claim C1: for initialized parameters (with `width * height` in the range of the `int` column
counter) `evaluate_deprojection_matrix` returns, the matrix it stores has 3 rows and
`width * height` columns, and for every pixel `u < width`, `v < height` its column
`u * height + v` is `((u - cx) / fx, (v - cy) / fy, 1)`. -/
theorem C1_deprojection_columns (cam : Camera α)
    (hinit : cam.parameters_.is_initialized = true)
    (hsz : cam.parameters_.width * cam.parameters_.height < 2147483648) :
    ∃ cam', evaluate_deprojection_matrix cam = some (true, cam') ∧
      cam'.deprojection_matrix_initialized_ = true ∧
      cam'.deprojection_matrix_.rows = 3 ∧
      cam'.deprojection_matrix_.cols = cam.parameters_.width * cam.parameters_.height ∧
      ∀ u v, u < cam.parameters_.width → v < cam.parameters_.height →
        cam'.deprojection_matrix_.coeff 0 (u * cam.parameters_.height + v)
            = ((u : α) - cam.parameters_.cx) / cam.parameters_.fx ∧
        cam'.deprojection_matrix_.coeff 1 (u * cam.parameters_.height + v)
            = ((v : α) - cam.parameters_.cy) / cam.parameters_.fy ∧
        cam'.deprojection_matrix_.coeff 2 (u * cam.parameters_.height + v) = 1 := by
  obtain ⟨_, hr, hc, hcol⟩ := deproj_loop_inv cam.parameters_ hsz cam.deprojection_matrix_
  have hne : (!cam.parameters_.is_initialized) = false := by simp [hinit]
  unfold evaluate_deprojection_matrix
  rw [hne]
  exact ⟨_, rfl, rfl, hr, hc, fun u v hu hv => hcol u v hv (Or.inl hu)⟩

/-- Witness of claim C1 on a `2 x 2` camera over the rationals. -/
theorem C1_deprojection_columns_witness :
    camera2x2.parameters_.is_initialized = true ∧
    camera2x2.parameters_.width * camera2x2.parameters_.height < 2147483648 ∧
    ∃ cam', evaluate_deprojection_matrix camera2x2 = some (true, cam') ∧
      cam'.deprojection_matrix_initialized_ = true ∧
      cam'.deprojection_matrix_.rows = 3 ∧
      cam'.deprojection_matrix_.cols = camera2x2.parameters_.width * camera2x2.parameters_.height ∧
      ∀ u v, u < camera2x2.parameters_.width → v < camera2x2.parameters_.height →
        cam'.deprojection_matrix_.coeff 0 (u * camera2x2.parameters_.height + v)
            = ((u : ℚ) - camera2x2.parameters_.cx) / camera2x2.parameters_.fx ∧
        cam'.deprojection_matrix_.coeff 1 (u * camera2x2.parameters_.height + v)
            = ((v : ℚ) - camera2x2.parameters_.cy) / camera2x2.parameters_.fy ∧
        cam'.deprojection_matrix_.coeff 2 (u * camera2x2.parameters_.height + v) = 1 :=
  ⟨rfl, by decide, C1_deprojection_columns camera2x2 rfl (by decide)⟩

end DeprojectionProofs

/-! ## The validity mask of `point_cloud` -/

section MaskProofs

variable {α : Type} [Zero α] [LT α] [DecidableRel (fun a b : α => a < b)]

theorem maskBody_inv (p : CameraParameters α) (depth : MatrixX α) (maximum_depth : α)
    (a b : Nat) (m : MatrixX Int) (ha : a < p.height) (hb : b < p.width)
    (h : m.rows = p.height ∧ m.cols = p.width ∧
      ∀ v' u', u' < p.width → (v' < a ∨ (v' = a ∧ u' < b)) →
        m.coeff v' u' = if ValidDepth depth maximum_depth u' v' then 1 else 0) :
    (maskBody depth maximum_depth a m b).rows = p.height ∧
    (maskBody depth maximum_depth a m b).cols = p.width ∧
      ∀ v' u', u' < p.width → (v' < a ∨ (v' = a ∧ u' < b + 1)) →
        (maskBody depth maximum_depth a m b).coeff v' u'
          = if ValidDepth depth maximum_depth u' v' then 1 else 0 := by
  obtain ⟨hr, hc, hcoef⟩ := h
  have hra : a < m.rows := by omega
  have hcb : b < m.cols := by omega
  unfold maskBody
  by_cases hv : ValidDepth depth maximum_depth b a
  · have hv' : depth.coeff a b > 0 ∧ depth.coeff a b < maximum_depth := hv
    simp only [hv', and_self, if_true]
    refine ⟨by simp [hr], by simp [hc], ?_⟩
    intro v' u' hu' hlt
    rw [MatrixX.coeff_set _ _ _ _ (by simpa using hra) (by simpa using hcb),
      MatrixX.coeff_set _ _ _ _ hra hcb]
    by_cases hEq : v' = a ∧ u' = b
    · rw [if_pos hEq, hEq.1, hEq.2, if_pos hv]
    · rw [if_neg hEq, if_neg hEq]
      exact hcoef v' u' hu' (by omega)
  · have hv' : ¬ (depth.coeff a b > 0 ∧ depth.coeff a b < maximum_depth) := hv
    simp only [hv', if_false]
    refine ⟨by simp [hr], by simp [hc], ?_⟩
    intro v' u' hu' hlt
    rw [MatrixX.coeff_set _ _ _ _ hra hcb]
    by_cases hEq : v' = a ∧ u' = b
    · rw [if_pos hEq, hEq.1, hEq.2, if_neg hv]
    · rw [if_neg hEq]
      exact hcoef v' u' hu' (by omega)

/-- The mask of `point_cloud` has the shape `height x width` and holds `1` at the valid pixels and
`0` at the others. -/
theorem valid_points_spec (p : CameraParameters α) (depth : MatrixX α) (maximum_depth : α) :
    (valid_points p depth maximum_depth).rows = p.height ∧
    (valid_points p depth maximum_depth).cols = p.width ∧
    ∀ v u, v < p.height → u < p.width →
      (valid_points p depth maximum_depth).coeff v u
        = if ValidDepth depth maximum_depth u v then 1 else 0 := by
  have h := forLoop_nest_inv p.height p.width
    (fun v m u => maskBody depth maximum_depth v m u)
    (fun a b m => m.rows = p.height ∧ m.cols = p.width ∧
      ∀ v' u', u' < p.width → (v' < a ∨ (v' = a ∧ u' < b)) →
        m.coeff v' u' = if ValidDepth depth maximum_depth u' v' then 1 else 0)
    (MatrixX.alloc p.height p.width)
    ⟨rfl, rfl, fun v' u' _ hlt => by omega⟩
    (fun a b m ha hb hP => maskBody_inv p depth maximum_depth a b m ha hb hP)
    (fun a m _ hP => ⟨hP.1, hP.2.1, fun v' u' hu' hlt =>
      hP.2.2 v' u' hu' (by omega)⟩)
    p.height le_rfl
  exact ⟨h.1, h.2.1, fun v u hv hu => h.2.2 v u hu (Or.inl hv)⟩

theorem forLoop_add_eq_sum (f : Nat → Int) (n : Nat) (a : Int) :
    forLoop n (fun acc r => acc + f r) a = a + ∑ r in Finset.range n, f r := by
  induction n with
  | zero => simp [forLoop]
  | succ n ih => rw [forLoop_succ, ih, Finset.sum_range_succ]; ring

theorem MatrixX.sum_eq (m : MatrixX Int) :
    m.sum = ∑ c in Finset.range m.cols, ∑ r in Finset.range m.rows, m.coeff r c := by
  unfold MatrixX.sum
  have h : (fun (acc : Int) (c : Nat) => forLoop m.rows (fun acc r => acc + m.coeff r c) acc)
      = (fun acc c => acc + ∑ r in Finset.range m.rows, m.coeff r c) := by
    funext acc c
    exact forLoop_add_eq_sum (fun r => m.coeff r c) m.rows acc
  rw [h, forLoop_add_eq_sum]
  simp

/-- The sum of the mask is the number of valid pixels. -/
theorem valid_points_sum (p : CameraParameters α) (depth : MatrixX α) (maximum_depth : α) :
    (valid_points p depth maximum_depth).sum = ((validPixels p depth maximum_depth).card : Int) := by
  obtain ⟨hr, hc, hcoef⟩ := valid_points_spec p depth maximum_depth
  rw [MatrixX.sum_eq, hr, hc]
  unfold validPixels
  rw [Finset.card_filter, Finset.sum_product]
  push_cast
  refine Finset.sum_congr rfl (fun u hu => Finset.sum_congr rfl (fun v hv => ?_))
  rw [hcoef v u (Finset.mem_range.mp hv) (Finset.mem_range.mp hu)]

theorem valid_points_number (p : CameraParameters α) (depth : MatrixX α) (maximum_depth : α) :
    (valid_points p depth maximum_depth).sum.toNat = (validPixels p depth maximum_depth).card := by
  rw [valid_points_sum, Int.toNat_ofNat]

end MaskProofs

/-! ## Counting the valid pixels in scan order -/

section ScanProofs

variable {α : Type} [Zero α] [LT α] [DecidableRel (fun a b : α => a < b)]

theorem mem_validPixels (p : CameraParameters α) (depth : MatrixX α) (maximum_depth : α)
    (q : Nat × Nat) :
    q ∈ validPixels p depth maximum_depth ↔
      q.1 < p.width ∧ q.2 < p.height ∧ ValidDepth depth maximum_depth q.1 q.2 := by
  unfold validPixels
  rw [Finset.mem_filter, Finset.mem_product, Finset.mem_range, Finset.mem_range, and_assoc]

theorem validBefore_lt_card (p : CameraParameters α) (depth : MatrixX α) (maximum_depth : α)
    (v u : Nat) (hq : (u, v) ∈ validPixels p depth maximum_depth) :
    validBefore p depth maximum_depth v u < (validPixels p depth maximum_depth).card := by
  unfold validBefore
  apply Finset.card_lt_card
  rw [Finset.ssubset_iff_of_subset (Finset.filter_subset _ _)]
  refine ⟨(u, v), hq, ?_⟩
  rw [Finset.mem_filter]
  rintro ⟨_, h⟩
  unfold ScanBefore at h
  simp at h

theorem validBefore_lt (p : CameraParameters α) (depth : MatrixX α) (maximum_depth : α)
    (v u : Nat) (q : Nat × Nat) (hq : q ∈ validPixels p depth maximum_depth)
    (hb : ScanBefore v u q) :
    validBefore p depth maximum_depth q.2 q.1 < validBefore p depth maximum_depth v u := by
  unfold validBefore
  apply Finset.card_lt_card
  have hsub : (validPixels p depth maximum_depth).filter (ScanBefore q.2 q.1)
      ⊆ (validPixels p depth maximum_depth).filter (ScanBefore v u) := by
    intro x hx
    rw [Finset.mem_filter] at hx ⊢
    refine ⟨hx.1, ?_⟩
    have h1 := hx.2
    unfold ScanBefore at h1 hb ⊢
    omega
  rw [Finset.ssubset_iff_of_subset hsub]
  refine ⟨q, Finset.mem_filter.mpr ⟨hq, hb⟩, ?_⟩
  rw [Finset.mem_filter]
  rintro ⟨_, h⟩
  unfold ScanBefore at h
  omega

theorem validBefore_succ (p : CameraParameters α) (depth : MatrixX α) (maximum_depth : α)
    (v u : Nat) (hv : v < p.height) (hu : u < p.width) :
    validBefore p depth maximum_depth v (u + 1)
      = validBefore p depth maximum_depth v u
        + if ValidDepth depth maximum_depth u v then 1 else 0 := by
  unfold validBefore
  by_cases hval : ValidDepth depth maximum_depth u v
  · rw [if_pos hval]
    have hmem : (u, v) ∈ validPixels p depth maximum_depth :=
      (mem_validPixels p depth maximum_depth (u, v)).mpr ⟨hu, hv, hval⟩
    have hEq : (validPixels p depth maximum_depth).filter (ScanBefore v (u + 1))
        = insert (u, v) ((validPixels p depth maximum_depth).filter (ScanBefore v u)) := by
      ext x
      rw [Finset.mem_insert, Finset.mem_filter, Finset.mem_filter]
      unfold ScanBefore
      constructor
      · rintro ⟨hx, h⟩
        by_cases hxe : x = (u, v)
        · exact Or.inl hxe
        · refine Or.inr ⟨hx, ?_⟩
          have : ¬ (x.1 = u ∧ x.2 = v) := fun hc => hxe (Prod.ext hc.1 hc.2)
          omega
      · rintro (h | ⟨hx, h⟩)
        · subst h
          exact ⟨hmem, Or.inr ⟨rfl, Nat.lt_succ_self _⟩⟩
        · exact ⟨hx, by omega⟩
    rw [hEq, Finset.card_insert_of_not_mem]
    rw [Finset.mem_filter]
    rintro ⟨_, h⟩
    unfold ScanBefore at h
    simp at h
  · rw [if_neg hval, Nat.add_zero]
    congr 1
    apply Finset.filter_congr
    intro x hx
    have hx' := (mem_validPixels p depth maximum_depth x).mp hx
    have hne : ¬ (x.1 = u ∧ x.2 = v) := by
      rintro ⟨h1, h2⟩
      rw [h1, h2] at hx'
      exact hval hx'.2.2
    unfold ScanBefore
    omega

theorem validBefore_row (p : CameraParameters α) (depth : MatrixX α) (maximum_depth : α)
    (v : Nat) :
    validBefore p depth maximum_depth (v + 1) 0 = validBefore p depth maximum_depth v p.width := by
  unfold validBefore
  congr 1
  apply Finset.filter_congr
  intro x hx
  have hx' := (mem_validPixels p depth maximum_depth x).mp hx
  unfold ScanBefore
  omega

theorem validBefore_zero (p : CameraParameters α) (depth : MatrixX α) (maximum_depth : α) :
    validBefore p depth maximum_depth 0 0 = 0 := by
  unfold validBefore
  rw [Finset.card_eq_zero, Finset.filter_eq_empty_iff]
  intro x _
  unfold ScanBefore
  omega

theorem validBefore_height (p : CameraParameters α) (depth : MatrixX α) (maximum_depth : α) :
    validBefore p depth maximum_depth p.height 0 = (validPixels p depth maximum_depth).card := by
  unfold validBefore
  congr 1
  rw [Finset.filter_eq_self]
  intro x hx
  have hx' := (mem_validPixels p depth maximum_depth x).mp hx
  unfold ScanBefore
  omega

theorem scanBefore_trichotomy (q1 q2 : Nat × Nat) (hne : q1 ≠ q2) :
    ScanBefore q2.2 q2.1 q1 ∨ ScanBefore q1.2 q1.1 q2 := by
  have : ¬ (q1.1 = q2.1 ∧ q1.2 = q2.2) := fun h => hne (Prod.ext h.1 h.2)
  unfold ScanBefore
  omega

theorem validBefore_injOn (p : CameraParameters α) (depth : MatrixX α) (maximum_depth : α)
    (q1 q2 : Nat × Nat) (h1 : q1 ∈ validPixels p depth maximum_depth)
    (h2 : q2 ∈ validPixels p depth maximum_depth)
    (heq : validBefore p depth maximum_depth q1.2 q1.1
      = validBefore p depth maximum_depth q2.2 q2.1) : q1 = q2 := by
  by_contra hne
  rcases scanBefore_trichotomy q1 q2 hne with h | h
  · exact absurd heq (Nat.ne_of_lt (validBefore_lt p depth maximum_depth q2.2 q2.1 q1 h1 h))
  · exact absurd heq.symm (Nat.ne_of_lt (validBefore_lt p depth maximum_depth q1.2 q1.1 q2 h2 h))

/-- Every index below the number of valid pixels is the rank of exactly one valid pixel. -/
theorem validBefore_existsUnique (p : CameraParameters α) (depth : MatrixX α) (maximum_depth : α)
    (c : Nat) (hc : c < (validPixels p depth maximum_depth).card) :
    ∃! q : Nat × Nat, q ∈ validPixels p depth maximum_depth ∧
      validBefore p depth maximum_depth q.2 q.1 = c := by
  obtain ⟨q, hq, hqc⟩ := Finset.surj_on_of_inj_on_of_card_le
    (fun (q : Nat × Nat) (_ : q ∈ validPixels p depth maximum_depth) =>
      validBefore p depth maximum_depth q.2 q.1)
    (fun q hq => Finset.mem_range.mpr (validBefore_lt_card p depth maximum_depth q.2 q.1 hq))
    (fun q1 q2 h1 h2 heq => validBefore_injOn p depth maximum_depth q1 q2 h1 h2 heq)
    (by rw [Finset.card_range]) c (Finset.mem_range.mpr hc)
  refine ⟨q, ⟨hq, hqc.symm⟩, ?_⟩
  rintro q' ⟨hq', hqc'⟩
  exact validBefore_injOn p depth maximum_depth q' q hq' hq (by rw [hqc', hqc])

end ScanProofs

/-! ## The compaction loop of `point_cloud` -/

section CloudBodyProofs

variable {α : Type} [Mul α] [NatCast α]

theorem cloudBody_counter (p : CameraParameters α) (mask : MatrixX Int) (dm depth : MatrixX α)
    (colors : Bool) (rgb : CvMat) (v u : Nat) (st : MatrixX α × Nat) :
    (cloudBody p mask dm depth colors rgb v st u).2
      = st.2 + if mask.coeff v u = 1 then 1 else 0 := by
  unfold cloudBody
  split <;> rfl

theorem cloudBody_rows (p : CameraParameters α) (mask : MatrixX Int) (dm depth : MatrixX α)
    (colors : Bool) (rgb : CvMat) (v u : Nat) (st : MatrixX α × Nat) :
    (cloudBody p mask dm depth colors rgb v st u).1.rows = st.1.rows := by
  unfold cloudBody
  split
  · cases colors <;> simp
  · rfl

theorem cloudBody_cols (p : CameraParameters α) (mask : MatrixX Int) (dm depth : MatrixX α)
    (colors : Bool) (rgb : CvMat) (v u : Nat) (st : MatrixX α × Nat) :
    (cloudBody p mask dm depth colors rgb v st u).1.cols = st.1.cols := by
  unfold cloudBody
  split
  · cases colors <;> simp
  · rfl

theorem cloudBody_coeff_other (p : CameraParameters α) (mask : MatrixX Int) (dm depth : MatrixX α)
    (colors : Bool) (rgb : CvMat) (v u : Nat) (st : MatrixX α × Nat) (i j : Nat)
    (h : j ≠ st.2) :
    (cloudBody p mask dm depth colors rgb v st u).1.coeff i j = st.1.coeff i j := by
  unfold cloudBody
  split
  · cases colors <;> simp [MatrixX.coeff_set_ne_col, h]
  · rfl

theorem cloudBody_coeff_written (p : CameraParameters α) (mask : MatrixX Int)
    (dm depth : MatrixX α) (colors : Bool) (rgb : CvMat) (v u : Nat) (st : MatrixX α × Nat)
    (hm : mask.coeff v u = 1) (hr : st.1.rows = if colors then 6 else 3)
    (hc : st.2 < st.1.cols) :
    ColumnHolds p dm depth colors rgb (cloudBody p mask dm depth colors rgb v st u).1 st.2
      (u, v) := by
  unfold cloudBody ColumnHolds
  rw [if_pos hm]
  cases colors
  · simp only [if_false, Bool.false_eq_true] at hr ⊢
    refine ⟨?_, fun h => absurd h (by simp)⟩
    intro r hr3
    interval_cases r
    · rw [MatrixX.coeff_set_ne_row _ _ _ _ _ _ (by decide),
        MatrixX.coeff_set_ne_row _ _ _ _ _ _ (by decide),
        MatrixX.coeff_set_same _ _ _ _ (by omega) hc]
    · rw [MatrixX.coeff_set_ne_row _ _ _ _ _ _ (by decide),
        MatrixX.coeff_set_same _ _ _ _ (by simp; omega) (by simpa using hc)]
    · rw [MatrixX.coeff_set_same _ _ _ _ (by simp; omega) (by simpa using hc)]
  · simp only [if_true] at hr ⊢
    refine ⟨?_, fun _ => ⟨?_, ?_, ?_⟩⟩
    · intro r hr3
      interval_cases r
      · rw [MatrixX.coeff_set_ne_row _ _ _ _ _ _ (by decide),
          MatrixX.coeff_set_ne_row _ _ _ _ _ _ (by decide),
          MatrixX.coeff_set_ne_row _ _ _ _ _ _ (by decide),
          MatrixX.coeff_set_ne_row _ _ _ _ _ _ (by decide),
          MatrixX.coeff_set_ne_row _ _ _ _ _ _ (by decide),
          MatrixX.coeff_set_same _ _ _ _ (by omega) hc]
      · rw [MatrixX.coeff_set_ne_row _ _ _ _ _ _ (by decide),
          MatrixX.coeff_set_ne_row _ _ _ _ _ _ (by decide),
          MatrixX.coeff_set_ne_row _ _ _ _ _ _ (by decide),
          MatrixX.coeff_set_ne_row _ _ _ _ _ _ (by decide),
          MatrixX.coeff_set_same _ _ _ _ (by simp; omega) (by simpa using hc)]
      · rw [MatrixX.coeff_set_ne_row _ _ _ _ _ _ (by decide),
          MatrixX.coeff_set_ne_row _ _ _ _ _ _ (by decide),
          MatrixX.coeff_set_ne_row _ _ _ _ _ _ (by decide),
          MatrixX.coeff_set_same _ _ _ _ (by simp; omega) (by simpa using hc)]
    · rw [MatrixX.coeff_set_ne_row _ _ _ _ _ _ (by decide),
        MatrixX.coeff_set_ne_row _ _ _ _ _ _ (by decide),
        MatrixX.coeff_set_same _ _ _ _ (by simp; omega) (by simpa using hc)]
    · rw [MatrixX.coeff_set_ne_row _ _ _ _ _ _ (by decide),
        MatrixX.coeff_set_same _ _ _ _ (by simp; omega) (by simpa using hc)]
    · rw [MatrixX.coeff_set_same _ _ _ _ (by simp; omega) (by simpa using hc)]

theorem columnHolds_congr (p : CameraParameters α) (dm depth : MatrixX α) (colors : Bool)
    (rgb : CvMat) (m m' : MatrixX α) (c : Nat) (q : Nat × Nat)
    (h : ∀ i, m'.coeff i c = m.coeff i c)
    (hm : ColumnHolds p dm depth colors rgb m c q) :
    ColumnHolds p dm depth colors rgb m' c q := by
  unfold ColumnHolds at hm ⊢
  simp only [h]
  exact hm

end CloudBodyProofs

section CloudProofs

variable {α : Type} [Zero α] [LT α] [DecidableRel (fun a b : α => a < b)] [Mul α] [NatCast α]

theorem cloudBody_inv (p : CameraParameters α) (dm depth : MatrixX α) (maximum_depth : α)
    (colors : Bool) (rgb : CvMat) (a b : Nat) (st : MatrixX α × Nat)
    (ha : a < p.height) (hb : b < p.width)
    (h : CloudInv p dm depth maximum_depth colors rgb a b st) :
    CloudInv p dm depth maximum_depth colors rgb a (b + 1)
      (cloudBody p (valid_points p depth maximum_depth) dm depth colors rgb a st b) := by
  obtain ⟨hcnt, hr, hc, hcol⟩ := h
  have hmask := (valid_points_spec p depth maximum_depth).2.2 a b ha hb
  refine ⟨?_, ?_, ?_, ?_⟩
  · rw [cloudBody_counter, validBefore_succ p depth maximum_depth a b ha hb, hcnt, hmask]
    by_cases hval : ValidDepth depth maximum_depth b a
    · simp [hval]
    · simp [hval]
  · rw [cloudBody_rows, hr]
  · rw [cloudBody_cols, hc]
  · intro q hq hsb
    by_cases hqe : q = (b, a)
    · subst hqe
      have hval := ((mem_validPixels p depth maximum_depth (b, a)).mp hq).2.2
      have hm1 : (valid_points p depth maximum_depth).coeff a b = 1 := by
        rw [hmask, if_pos hval]
      have hlt : st.2 < st.1.cols := by
        rw [hcnt, hc]
        exact validBefore_lt_card p depth maximum_depth a b hq
      have hw := cloudBody_coeff_written p (valid_points p depth maximum_depth) dm depth colors
        rgb a b st hm1 hr hlt
      rw [hcnt] at hw
      exact hw
    · have hsb' : ScanBefore a b q := by
        have : ¬ (q.1 = b ∧ q.2 = a) := fun hc' => hqe (Prod.ext hc'.1 hc'.2)
        unfold ScanBefore at hsb ⊢
        omega
      have hne : validBefore p depth maximum_depth q.2 q.1 ≠ st.2 := by
        rw [hcnt]
        exact Nat.ne_of_lt (validBefore_lt p depth maximum_depth a b q hq hsb')
      exact columnHolds_congr p dm depth colors rgb st.1 _ _ q
        (fun i => cloudBody_coeff_other p _ dm depth colors rgb a b st i _ hne)
        (hcol q hq hsb')

theorem cloud_row_inv (p : CameraParameters α) (dm depth : MatrixX α) (maximum_depth : α)
    (colors : Bool) (rgb : CvMat) (a : Nat) (st : MatrixX α × Nat)
    (h : CloudInv p dm depth maximum_depth colors rgb a p.width st) :
    CloudInv p dm depth maximum_depth colors rgb (a + 1) 0 st := by
  obtain ⟨hcnt, hr, hc, hcol⟩ := h
  refine ⟨by rw [hcnt, validBefore_row], hr, hc, ?_⟩
  intro q hq hsb
  refine hcol q hq ?_
  have hq' := (mem_validPixels p depth maximum_depth q).mp hq
  unfold ScanBefore at hsb ⊢
  omega

theorem cloud_init_inv (p : CameraParameters α) (dm depth : MatrixX α) (maximum_depth : α)
    (colors : Bool) (rgb : CvMat) :
    CloudInv p dm depth maximum_depth colors rgb 0 0
      ((MatrixX.alloc (if colors then 6 else 3) (validPixels p depth maximum_depth).card
        : MatrixX α), 0) := by
  refine ⟨(validBefore_zero p depth maximum_depth).symm, rfl, rfl, ?_⟩
  intro q _ hsb
  unfold ScanBefore at hsb
  omega

/-- The invariant holds on entry to every iteration `(v, u)` of the compaction loop. -/
theorem cloudStateBefore_inv (p : CameraParameters α) (dm depth : MatrixX α) (maximum_depth : α)
    (colors : Bool) (rgb : CvMat) (v u : Nat) (hv : v < p.height) (hu : u ≤ p.width) :
    CloudInv p dm depth maximum_depth colors rgb v u
      (cloudStateBefore p (valid_points p depth maximum_depth) dm depth colors rgb
        (MatrixX.alloc (if colors then 6 else 3) (validPixels p depth maximum_depth).card, 0)
        v u) := by
  unfold cloudStateBefore
  refine forLoop_inner_inv p.width
    (fun v st u => cloudBody p (valid_points p depth maximum_depth) dm depth colors rgb v st u)
    (CloudInv p dm depth maximum_depth colors rgb) v
    (fun b s hb hP => cloudBody_inv p dm depth maximum_depth colors rgb v b s hv hb hP) _ ?_ u hu
  exact forLoop_nest_inv p.height p.width
    (fun v st u => cloudBody p (valid_points p depth maximum_depth) dm depth colors rgb v st u)
    (CloudInv p dm depth maximum_depth colors rgb) _
    (cloud_init_inv p dm depth maximum_depth colors rgb)
    (fun a b s ha hb hP => cloudBody_inv p dm depth maximum_depth colors rgb a b s ha hb hP)
    (fun a s _ hP => cloud_row_inv p dm depth maximum_depth colors rgb a s hP) v (le_of_lt hv)

/-- The invariant holds when the compaction loop ends. -/
theorem cloudLoop_inv (p : CameraParameters α) (dm depth : MatrixX α) (maximum_depth : α)
    (colors : Bool) (rgb : CvMat) :
    CloudInv p dm depth maximum_depth colors rgb p.height 0
      (forLoop p.height (fun st v => forLoop p.width
        (fun st u => cloudBody p (valid_points p depth maximum_depth) dm depth colors rgb v st u)
        st)
        (MatrixX.alloc (if colors then 6 else 3) (validPixels p depth maximum_depth).card, 0)) :=
  forLoop_nest_inv p.height p.width
    (fun v st u => cloudBody p (valid_points p depth maximum_depth) dm depth colors rgb v st u)
    (CloudInv p dm depth maximum_depth colors rgb) _
    (cloud_init_inv p dm depth maximum_depth colors rgb)
    (fun a b s ha hb hP => cloudBody_inv p dm depth maximum_depth colors rgb a b s ha hb hP)
    (fun a s _ hP => cloud_row_inv p dm depth maximum_depth colors rgb a s hP) p.height le_rfl

theorem cloudLoop_inv' (p : CameraParameters α) (dm depth : MatrixX α) (maximum_depth : α)
    (colors : Bool) (rgb : CvMat) :
    CloudInv p dm depth maximum_depth colors rgb p.height 0
      (cloudLoop p (valid_points p depth maximum_depth) dm depth colors rgb
        (valid_points p depth maximum_depth).sum.toNat) := by
  rw [valid_points_number]
  exact cloudLoop_inv p dm depth maximum_depth colors rgb

theorem filledCloud_inv (cam : Camera α) (acc : FrameAccess α) (blocking : Bool)
    (maximum_depth : α) (enable_colors : Bool) :
    (filledCloud cam acc blocking maximum_depth enable_colors).rows
        = (if enable_colors then 6 else 3) ∧
    (filledCloud cam acc blocking maximum_depth enable_colors).cols
        = (validPixels cam.parameters_ (acc.depth blocking).2 maximum_depth).card ∧
    ∀ q ∈ validPixels cam.parameters_ (acc.depth blocking).2 maximum_depth,
      ColumnHolds cam.parameters_ cam.deprojection_matrix_ (acc.depth blocking).2 enable_colors
        (if enable_colors then acc.rgb blocking else (false, CvMat.empty)).2
        (filledCloud cam acc blocking maximum_depth enable_colors)
        (validBefore cam.parameters_ (acc.depth blocking).2 maximum_depth q.2 q.1) q := by
  obtain ⟨_, hr, hc, hcol⟩ := cloudLoop_inv' cam.parameters_ cam.deprojection_matrix_
    (acc.depth blocking).2 maximum_depth enable_colors
    (if enable_colors then acc.rgb blocking else (false, CvMat.empty)).2
  refine ⟨hr, hc, fun q hq => hcol q hq ?_⟩
  have hq' := (mem_validPixels _ _ _ q).mp hq
  unfold ScanBefore
  omega

/-- The column of a pixel is the number of valid pixels that the scan visits before it. -/
theorem column_of_eq (cam : Camera α) (acc : FrameAccess α) (blocking : Bool)
    (maximum_depth : α) (enable_colors : Bool) (u v : Nat)
    (hu : u < cam.parameters_.width) (hv : v < cam.parameters_.height) :
    column_of cam acc blocking maximum_depth enable_colors u v
      = validBefore cam.parameters_ (acc.depth blocking).2 maximum_depth v u := by
  unfold column_of
  simp only [valid_points_number]
  exact (cloudStateBefore_inv cam.parameters_ _ (acc.depth blocking).2 maximum_depth
    enable_colors _ v u hv (le_of_lt hu)).1

/-- Row-major order of two pixels is the order of their visits. -/
theorem scanBefore_of_lin_lt {w u1 v1 u2 v2 : Nat} (h2 : u2 < w)
    (hlt : v1 * w + u1 < v2 * w + u2) : ScanBefore v2 u2 (u1, v1) := by
  unfold ScanBefore
  by_contra hcon
  have hge : v2 ≤ v1 := by
    by_contra hlt'
    exact hcon (Or.inl (by simpa using hlt'))
  rcases Nat.lt_or_eq_of_le hge with h | h
  · have h3 : (v2 + 1) * w ≤ v1 * w := Nat.mul_le_mul_right w h
    have h4 : (v2 + 1) * w = v2 * w + w := by ring
    omega
  · subst h
    exact hcon (Or.inr ⟨rfl, by simpa using hlt⟩)

variable [Add α]

/-- Normal form of `point_cloud`: the five checks, then the filled cloud with the pose applied when
requested. -/
theorem point_cloud_eq (cam : Camera α) (acc : FrameAccess α) (blocking : Bool)
    (maximum_depth : α) (use_root_frame enable_colors : Bool) :
    point_cloud cam acc blocking maximum_depth use_root_frame enable_colors =
      if (enable_colors = true → (acc.rgb blocking).1 = true) ∧ (acc.depth blocking).1 = true ∧
          (use_root_frame = true → (acc.pose blocking).1 = true) ∧
          (validPixels cam.parameters_ (acc.depth blocking).2 maximum_depth).card ≠ 0 ∧
          cam.deprojection_matrix_initialized_ = true
      then (true,
        if use_root_frame then
          (filledCloud cam acc blocking maximum_depth enable_colors).transformTopRows
            (acc.pose blocking).2
        else filledCloud cam acc blocking maximum_depth enable_colors)
      else (false, MatrixX.empty) := by
  unfold point_cloud filledCloud deprojection_matrix
  simp only [valid_points_number]
  cases enable_colors <;> cases use_root_frame <;> cases hrgb : (acc.rgb blocking).1 <;>
    cases hdepth : (acc.depth blocking).1 <;> cases hpose : (acc.pose blocking).1 <;>
    cases hinit : cam.deprojection_matrix_initialized_ <;>
    by_cases hN : (validPixels cam.parameters_ (acc.depth blocking).2 maximum_depth).card = 0 <;>
    simp [hN, hrgb, hdepth, hpose, hinit]

/-- A successful `point_cloud` passed its five checks and returns the filled cloud. -/
theorem point_cloud_success (cam : Camera α) (acc : FrameAccess α) (blocking : Bool)
    (maximum_depth : α) (use_root_frame enable_colors : Bool)
    (hok : (point_cloud cam acc blocking maximum_depth use_root_frame enable_colors).1 = true) :
    ((enable_colors = true → (acc.rgb blocking).1 = true) ∧ (acc.depth blocking).1 = true ∧
      (use_root_frame = true → (acc.pose blocking).1 = true) ∧
      (validPixels cam.parameters_ (acc.depth blocking).2 maximum_depth).card ≠ 0 ∧
      cam.deprojection_matrix_initialized_ = true) ∧
    (point_cloud cam acc blocking maximum_depth use_root_frame enable_colors).2 =
      if use_root_frame then
        (filledCloud cam acc blocking maximum_depth enable_colors).transformTopRows
          (acc.pose blocking).2
      else filledCloud cam acc blocking maximum_depth enable_colors := by
  rw [point_cloud_eq] at hok ⊢
  split at hok
  · next hc => exact ⟨hc, by rw [if_pos hc]⟩
  · exact absurd hok (by simp)

end CloudProofs

/-! ## Claims on `point_cloud` -/

section PointCloudClaims

variable {α : Type} [Zero α] [LT α] [DecidableRel (fun a b : α => a < b)] [Mul α] [NatCast α]
  [Add α]

/-- Claim C2: when `point_cloud` succeeds on a depth frame of size `height x width`, the returned
matrix has 3 rows without colours and 6 rows with colours, and its number of columns is the
number of pixels `(u, v)` with `0 < depth(v, u) < maximum_depth`, both bounds strict. -/
theorem C2_point_cloud_shape (cam : Camera α) (acc : FrameAccess α) (blocking : Bool)
    (maximum_depth : α) (use_root_frame enable_colors : Bool)
    (_hsize : (acc.depth blocking).2.rows = cam.parameters_.height ∧
      (acc.depth blocking).2.cols = cam.parameters_.width)
    (hok : (point_cloud cam acc blocking maximum_depth use_root_frame enable_colors).1 = true) :
    (point_cloud cam acc blocking maximum_depth use_root_frame enable_colors).2.rows
      = (if enable_colors then 6 else 3) ∧
    (point_cloud cam acc blocking maximum_depth use_root_frame enable_colors).2.cols
      = ((Finset.range cam.parameters_.width ×ˢ Finset.range cam.parameters_.height).filter
          (fun q => 0 < (acc.depth blocking).2.coeff q.2 q.1 ∧
            (acc.depth blocking).2.coeff q.2 q.1 < maximum_depth)).card := by
  obtain ⟨_, heq⟩ := point_cloud_success cam acc blocking maximum_depth use_root_frame
    enable_colors hok
  obtain ⟨hr, hc, _⟩ := filledCloud_inv cam acc blocking maximum_depth enable_colors
  rw [heq]
  cases use_root_frame
  · exact ⟨hr, hc⟩
  · exact ⟨hr, hc⟩

/-- Witness of claim C2: the integer camera, three valid pixels out of four, colours enabled. -/
theorem C2_point_cloud_shape_witness :
    (point_cloud intCamera intFrames true 10 false true).1 = true ∧
    (point_cloud intCamera intFrames true 10 false true).2.rows = 6 ∧
    (point_cloud intCamera intFrames true 10 false true).2.cols = 3 :=
  ⟨by decide,
    (C2_point_cloud_shape intCamera intFrames true 10 false true ⟨rfl, rfl⟩ (by decide)).1,
    (C2_point_cloud_shape intCamera intFrames true 10 false true ⟨rfl, rfl⟩ (by decide)).2.trans
      (by decide)⟩

/-- Claim C4, as stated, is refuted: on the integer camera with a `2 x 2` frame whose pixels
`(u, v) = (0, 1)` and `(1, 0)` are both valid, `point_cloud` succeeds and
`0 * height + 1 < 1 * height + 0`, yet the column of `(0, 1)` does not come before the column of
`(1, 0)`: the columns are not in the order of the deprojection matrix. -/
theorem C4_deprojection_order_counterexample :
    (point_cloud intCamera intFrames true 10 false false).1 = true ∧
    ValidDepth intDepth 10 0 1 ∧ ValidDepth intDepth 10 1 0 ∧
    0 * intCamera.parameters_.height + 1 < 1 * intCamera.parameters_.height + 0 ∧
    ¬ (column_of intCamera intFrames true 10 false 0 1
        < column_of intCamera intFrames true 10 false 1 0) := by
  decide

/-- Claim C4, amended: when `point_cloud` succeeds, the output columns list the valid pixels in
row-major order, `v` outer and `u` inner: if the valid pixels `(u1, v1)` and `(u2, v2)` satisfy
`v1 * width + u1 < v2 * width + u2`, the column of `(u1, v1)` comes before the column of
`(u2, v2)`, and both are columns of the output. -/
theorem C4_row_major_order (cam : Camera α) (acc : FrameAccess α) (blocking : Bool)
    (maximum_depth : α) (use_root_frame enable_colors : Bool)
    (hok : (point_cloud cam acc blocking maximum_depth use_root_frame enable_colors).1 = true)
    (u1 v1 u2 v2 : Nat)
    (hu1 : u1 < cam.parameters_.width) (hv1 : v1 < cam.parameters_.height)
    (hu2 : u2 < cam.parameters_.width) (hv2 : v2 < cam.parameters_.height)
    (hval1 : ValidDepth (acc.depth blocking).2 maximum_depth u1 v1)
    (hval2 : ValidDepth (acc.depth blocking).2 maximum_depth u2 v2)
    (hlt : v1 * cam.parameters_.width + u1 < v2 * cam.parameters_.width + u2) :
    column_of cam acc blocking maximum_depth enable_colors u1 v1
      < column_of cam acc blocking maximum_depth enable_colors u2 v2 ∧
    column_of cam acc blocking maximum_depth enable_colors u2 v2
      < (point_cloud cam acc blocking maximum_depth use_root_frame enable_colors).2.cols := by
  obtain ⟨_, heq⟩ := point_cloud_success cam acc blocking maximum_depth use_root_frame
    enable_colors hok
  obtain ⟨_, hc, _⟩ := filledCloud_inv cam acc blocking maximum_depth enable_colors
  have hm1 : (u1, v1) ∈ validPixels cam.parameters_ (acc.depth blocking).2 maximum_depth :=
    (mem_validPixels _ _ _ (u1, v1)).mpr ⟨hu1, hv1, hval1⟩
  have hm2 : (u2, v2) ∈ validPixels cam.parameters_ (acc.depth blocking).2 maximum_depth :=
    (mem_validPixels _ _ _ (u2, v2)).mpr ⟨hu2, hv2, hval2⟩
  rw [column_of_eq cam acc blocking maximum_depth enable_colors u1 v1 hu1 hv1,
    column_of_eq cam acc blocking maximum_depth enable_colors u2 v2 hu2 hv2]
  refine ⟨validBefore_lt _ _ _ v2 u2 (u1, v1) hm1 (scanBefore_of_lin_lt hu2 hlt), ?_⟩
  have hcols : (point_cloud cam acc blocking maximum_depth use_root_frame enable_colors).2.cols
      = (validPixels cam.parameters_ (acc.depth blocking).2 maximum_depth).card := by
    rw [heq]
    cases use_root_frame
    · exact hc
    · exact hc
  rw [hcols]
  exact validBefore_lt_card _ _ _ v2 u2 hm2

/-- Witness of claim C4 as amended: pixel `(1, 0)` comes before pixel `(0, 1)`. -/
theorem C4_row_major_order_witness :
    (point_cloud intCamera intFrames true 10 false false).1 = true ∧
    column_of intCamera intFrames true 10 false 1 0
      < column_of intCamera intFrames true 10 false 0 1 ∧
    column_of intCamera intFrames true 10 false 0 1
      < (point_cloud intCamera intFrames true 10 false false).2.cols :=
  ⟨by decide,
    C4_row_major_order intCamera intFrames true 10 false false (by decide) 1 0 0 1
      (by decide) (by decide) (by decide) (by decide) (by decide) (by decide) (by decide)⟩

/-- Claim C5: when no pixel of the depth frame satisfies `0 < depth(v, u) < maximum_depth`,
`point_cloud` returns failure with the empty matrix; in particular (as `0 < 0` is false) for an
all-zero depth frame and any `maximum_depth`. -/
theorem C5_no_valid_pixel (cam : Camera α) (acc : FrameAccess α) (blocking : Bool)
    (maximum_depth : α) (use_root_frame enable_colors : Bool) :
    ((∀ u v, u < cam.parameters_.width → v < cam.parameters_.height →
        ¬ ((acc.depth blocking).2.coeff v u > 0 ∧
          (acc.depth blocking).2.coeff v u < maximum_depth)) →
      point_cloud cam acc blocking maximum_depth use_root_frame enable_colors
        = (false, MatrixX.empty)) ∧
    (¬ ((0 : α) < 0) →
      (∀ u v, u < cam.parameters_.width → v < cam.parameters_.height →
        (acc.depth blocking).2.coeff v u = 0) →
      point_cloud cam acc blocking maximum_depth use_root_frame enable_colors
        = (false, MatrixX.empty)) := by
  have key : (∀ u v, u < cam.parameters_.width → v < cam.parameters_.height →
        ¬ ((acc.depth blocking).2.coeff v u > 0 ∧
          (acc.depth blocking).2.coeff v u < maximum_depth)) →
      point_cloud cam acc blocking maximum_depth use_root_frame enable_colors
        = (false, MatrixX.empty) := by
    intro hnone
    rw [point_cloud_eq, if_neg]
    rintro ⟨_, _, _, hN, _⟩
    apply hN
    rw [Finset.card_eq_zero, Finset.eq_empty_iff_forall_not_mem]
    intro q hq
    have hq' := (mem_validPixels _ _ _ q).mp hq
    exact hnone q.1 q.2 hq'.1 hq'.2.1 hq'.2.2
  refine ⟨key, fun h0 hz => key ?_⟩
  intro u v hu hv hval
  rw [hz u v hu hv] at hval
  exact h0 hval.1

/-- Witness of claim C5: an all-zero `2 x 2` depth frame. -/
theorem C5_no_valid_pixel_witness :
    (∀ u v, u < intCamera.parameters_.width → v < intCamera.parameters_.height →
      (intFramesZeroDepth.depth true).2.coeff v u = 0) ∧
    point_cloud intCamera intFramesZeroDepth true 10 true true = (false, MatrixX.empty) :=
  ⟨fun _ _ _ _ => rfl,
    (C5_no_valid_pixel intCamera intFramesZeroDepth true 10 true true).2 (by decide)
      (fun _ _ _ _ => rfl)⟩

/-- Claim C6: `point_cloud` returns failure with the empty `0 x 0` matrix when colours are enabled and
the rgb accessor fails, when the depth accessor fails, and when the root frame is requested and
the pose accessor fails.  With colours disabled the result does not depend on the rgb accessor,
and without the root frame it does not depend on the pose accessor, so their failure causes no
failure. -/
theorem C6_accessor_failures (cam : Camera α) (acc : FrameAccess α) (blocking : Bool)
    (maximum_depth : α) (use_root_frame enable_colors : Bool) :
    ((MatrixX.empty : MatrixX α).rows = 0 ∧ (MatrixX.empty : MatrixX α).cols = 0) ∧
    (enable_colors = true → (acc.rgb blocking).1 = false →
      point_cloud cam acc blocking maximum_depth use_root_frame enable_colors
        = (false, MatrixX.empty)) ∧
    ((acc.depth blocking).1 = false →
      point_cloud cam acc blocking maximum_depth use_root_frame enable_colors
        = (false, MatrixX.empty)) ∧
    (use_root_frame = true → (acc.pose blocking).1 = false →
      point_cloud cam acc blocking maximum_depth use_root_frame enable_colors
        = (false, MatrixX.empty)) ∧
    (∀ rgb' : Bool → Bool × CvMat,
      point_cloud cam { acc with rgb := rgb' } blocking maximum_depth use_root_frame false
        = point_cloud cam acc blocking maximum_depth use_root_frame false) ∧
    (∀ pose' : Bool → Bool × Transform α,
      point_cloud cam { acc with pose := pose' } blocking maximum_depth false enable_colors
        = point_cloud cam acc blocking maximum_depth false enable_colors) := by
  refine ⟨⟨rfl, rfl⟩, ?_, ?_, ?_, ?_, ?_⟩
  · intro hc hrgb
    rw [point_cloud_eq, if_neg]
    rintro ⟨h, _⟩
    rw [h hc] at hrgb
    exact absurd hrgb (by simp)
  · intro hdepth
    rw [point_cloud_eq, if_neg]
    rintro ⟨_, h, _⟩
    rw [h] at hdepth
    exact absurd hdepth (by simp)
  · intro hr hpose
    rw [point_cloud_eq, if_neg]
    rintro ⟨_, _, h, _⟩
    rw [h hr] at hpose
    exact absurd hpose (by simp)
  · intro rgb'
    simp [point_cloud]
  · intro pose'
    simp [point_cloud]

/-- Witness of claim C6: with colour and pose unavailable, `point_cloud` fails when either is
requested and succeeds when neither is. -/
theorem C6_accessor_failures_witness :
    point_cloud intCamera intFramesDepthOnly true 10 false true = (false, MatrixX.empty) ∧
    point_cloud intCamera intFramesDepthOnly true 10 true false = (false, MatrixX.empty) ∧
    (point_cloud intCamera intFramesDepthOnly true 10 false false).1 = true :=
  ⟨(C6_accessor_failures intCamera intFramesDepthOnly true 10 false true).2.1 rfl rfl,
    (C6_accessor_failures intCamera intFramesDepthOnly true 10 true false).2.2.2.1 rfl rfl,
    by decide⟩

/-- Claim C7: when `point_cloud` succeeds with colours enabled, the column of a valid pixel `(u, v)`
has rows 3, 4, 5 equal to channels 2, 1, 0 of the image pixel at `(u, v)`: the channel order is
reversed. -/
theorem C7_color_rows (cam : Camera α) (acc : FrameAccess α) (blocking : Bool)
    (maximum_depth : α) (use_root_frame : Bool)
    (hok : (point_cloud cam acc blocking maximum_depth use_root_frame true).1 = true)
    (u v : Nat) (hu : u < cam.parameters_.width) (hv : v < cam.parameters_.height)
    (hval : ValidDepth (acc.depth blocking).2 maximum_depth u v) :
    column_of cam acc blocking maximum_depth true u v
      < (point_cloud cam acc blocking maximum_depth use_root_frame true).2.cols ∧
    (point_cloud cam acc blocking maximum_depth use_root_frame true).2.coeff 3
        (column_of cam acc blocking maximum_depth true u v)
      = (((acc.rgb blocking).2.at_point u v).c2 : α) ∧
    (point_cloud cam acc blocking maximum_depth use_root_frame true).2.coeff 4
        (column_of cam acc blocking maximum_depth true u v)
      = (((acc.rgb blocking).2.at_point u v).c1 : α) ∧
    (point_cloud cam acc blocking maximum_depth use_root_frame true).2.coeff 5
        (column_of cam acc blocking maximum_depth true u v)
      = (((acc.rgb blocking).2.at_point u v).c0 : α) := by
  obtain ⟨_, heq⟩ := point_cloud_success cam acc blocking maximum_depth use_root_frame true hok
  obtain ⟨_, hc, hcol⟩ := filledCloud_inv cam acc blocking maximum_depth true
  have hm : (u, v) ∈ validPixels cam.parameters_ (acc.depth blocking).2 maximum_depth :=
    (mem_validPixels _ _ _ (u, v)).mpr ⟨hu, hv, hval⟩
  have hcolor := (hcol (u, v) hm).2 rfl
  rw [column_of_eq cam acc blocking maximum_depth true u v hu hv, heq]
  have hlt := validBefore_lt_card _ _ _ v u hm
  cases use_root_frame
  · exact ⟨by rw [if_neg (by simp), hc]; exact hlt, hcolor⟩
  · refine ⟨by rw [if_pos rfl]; exact hc ▸ hlt, ?_⟩
    simpa [MatrixX.transformTopRows] using hcolor

/-- Witness of claim C7: pixel `(1, 1)` of the integer camera, whose image pixel is
`(11, 111, 211)`. -/
theorem C7_color_rows_witness :
    (point_cloud intCamera intFrames true 10 true true).1 = true ∧
    ValidDepth (intFrames.depth true).2 10 1 1 ∧
    (point_cloud intCamera intFrames true 10 true true).2.coeff 3
        (column_of intCamera intFrames true 10 true 1 1) = 211 ∧
    (point_cloud intCamera intFrames true 10 true true).2.coeff 4
        (column_of intCamera intFrames true 10 true 1 1) = 111 ∧
    (point_cloud intCamera intFrames true 10 true true).2.coeff 5
        (column_of intCamera intFrames true 10 true 1 1) = 11 :=
  ⟨by decide, by decide,
    (C7_color_rows intCamera intFrames true 10 true (by decide) 1 1 (by decide) (by decide)
      (by decide)).2⟩

/-- Claim C8: with the pose accessor delivering the pose `(R, t)`, `point_cloud` with the root frame
returns what it returns without it, except that in every column the point `p` of rows 0-2 is
replaced by `R * p + t`: same outcome, same shape, same column of every pixel (`column_of` has
no root-frame argument), and rows 3 and beyond unchanged. -/
theorem C8_root_frame (cam : Camera α) (acc : FrameAccess α) (blocking : Bool)
    (maximum_depth : α) (enable_colors : Bool)
    (hpose : (acc.pose blocking).1 = true) :
    (point_cloud cam acc blocking maximum_depth true enable_colors).1
      = (point_cloud cam acc blocking maximum_depth false enable_colors).1 ∧
    (point_cloud cam acc blocking maximum_depth true enable_colors).2.rows
      = (point_cloud cam acc blocking maximum_depth false enable_colors).2.rows ∧
    (point_cloud cam acc blocking maximum_depth true enable_colors).2.cols
      = (point_cloud cam acc blocking maximum_depth false enable_colors).2.cols ∧
    ∀ c, c < (point_cloud cam acc blocking maximum_depth false enable_colors).2.cols →
      (∀ r, r < 3 →
        (point_cloud cam acc blocking maximum_depth true enable_colors).2.coeff r c
          = (acc.pose blocking).2.linear r 0
              * (point_cloud cam acc blocking maximum_depth false enable_colors).2.coeff 0 c
            + (acc.pose blocking).2.linear r 1
              * (point_cloud cam acc blocking maximum_depth false enable_colors).2.coeff 1 c
            + (acc.pose blocking).2.linear r 2
              * (point_cloud cam acc blocking maximum_depth false enable_colors).2.coeff 2 c
            + (acc.pose blocking).2.translation r) ∧
      (∀ r, 3 ≤ r →
        (point_cloud cam acc blocking maximum_depth true enable_colors).2.coeff r c
          = (point_cloud cam acc blocking maximum_depth false enable_colors).2.coeff r c) := by
  rw [point_cloud_eq cam acc blocking maximum_depth true,
    point_cloud_eq cam acc blocking maximum_depth false]
  by_cases hc : (enable_colors = true → (acc.rgb blocking).1 = true) ∧
      (acc.depth blocking).1 = true ∧
      (validPixels cam.parameters_ (acc.depth blocking).2 maximum_depth).card ≠ 0 ∧
      cam.deprojection_matrix_initialized_ = true
  · have h1 : (enable_colors = true → (acc.rgb blocking).1 = true) ∧
        (acc.depth blocking).1 = true ∧ (true = true → (acc.pose blocking).1 = true) ∧
        (validPixels cam.parameters_ (acc.depth blocking).2 maximum_depth).card ≠ 0 ∧
        cam.deprojection_matrix_initialized_ = true :=
      ⟨hc.1, hc.2.1, fun _ => hpose, hc.2.2⟩
    have h2 : (enable_colors = true → (acc.rgb blocking).1 = true) ∧
        (acc.depth blocking).1 = true ∧ (false = true → (acc.pose blocking).1 = true) ∧
        (validPixels cam.parameters_ (acc.depth blocking).2 maximum_depth).card ≠ 0 ∧
        cam.deprojection_matrix_initialized_ = true :=
      ⟨hc.1, hc.2.1, fun _ => hpose, hc.2.2⟩
    rw [if_pos h1, if_pos h2]
    refine ⟨rfl, rfl, rfl, ?_⟩
    intro c hlt
    simp only [if_true, Bool.false_eq_true, if_false] at hlt ⊢
    refine ⟨fun r hr => ?_, fun r hr => ?_⟩
    · simp [MatrixX.transformTopRows, Transform.act, hr, hlt]
    · have : ¬ r < 3 := by omega
      simp [MatrixX.transformTopRows, this]
  · have h1 : ¬ ((enable_colors = true → (acc.rgb blocking).1 = true) ∧
        (acc.depth blocking).1 = true ∧ (true = true → (acc.pose blocking).1 = true) ∧
        (validPixels cam.parameters_ (acc.depth blocking).2 maximum_depth).card ≠ 0 ∧
        cam.deprojection_matrix_initialized_ = true) :=
      fun h => hc ⟨h.1, h.2.1, h.2.2.2⟩
    have h2 : ¬ ((enable_colors = true → (acc.rgb blocking).1 = true) ∧
        (acc.depth blocking).1 = true ∧ (false = true → (acc.pose blocking).1 = true) ∧
        (validPixels cam.parameters_ (acc.depth blocking).2 maximum_depth).card ≠ 0 ∧
        cam.deprojection_matrix_initialized_ = true) :=
      fun h => hc ⟨h.1, h.2.1, h.2.2.2⟩
    rw [if_neg h1, if_neg h2]
    refine ⟨rfl, rfl, rfl, ?_⟩
    intro c hlt
    exact absurd hlt (Nat.not_lt_zero c)

/-- Witness of claim C8: the integer camera with a quarter turn about `z` and translation
`(1, 2, 3)`; the first point `(2, 0, 2)` becomes `(1, 4, 5)`. -/
theorem C8_root_frame_witness :
    (intFrames.pose true).1 = true ∧
    (point_cloud intCamera intFrames true 10 true true).1 = true ∧
    (point_cloud intCamera intFrames true 10 false true).2.coeff 0 0 = 2 ∧
    (point_cloud intCamera intFrames true 10 false true).2.coeff 1 0 = 0 ∧
    (point_cloud intCamera intFrames true 10 false true).2.coeff 2 0 = 2 ∧
    (point_cloud intCamera intFrames true 10 true true).2.coeff 0 0 = 1 ∧
    (point_cloud intCamera intFrames true 10 true true).2.coeff 1 0 = 4 ∧
    (point_cloud intCamera intFrames true 10 true true).2.coeff 2 0 = 5 ∧
    (point_cloud intCamera intFrames true 10 true true).2.cols
      = (point_cloud intCamera intFrames true 10 false true).2.cols :=
  ⟨rfl, by decide, by decide, by decide, by decide, by decide, by decide, by decide,
    (C8_root_frame intCamera intFrames true 10 true rfl).2.2.1⟩

end PointCloudClaims

section PointCloudField

variable {α : Type} [LinearOrderedField α]

/-- Claim C3: when `point_cloud` succeeds without the root frame: the column of every valid pixel
`(u, v)` is a column of the output whose rows 0-2 are `deprojection.column(u * height + v)` times
`depth(v, u)`; every output column is the column of exactly one valid pixel (so every valid pixel
is in exactly one column); and when the deprojection matrix was evaluated with `fx = fy = 1`,
`cx = cy = 0` and the only valid pixel is `(0, 0)` with depth 2, the output has the single
column `(0, 0, 2)`.  Numbers are elements of an ordered field. -/
theorem C3_point_cloud_points (cam : Camera α) (acc : FrameAccess α) (blocking : Bool)
    (maximum_depth : α) (enable_colors : Bool)
    (hok : (point_cloud cam acc blocking maximum_depth false enable_colors).1 = true) :
    (∀ u v, u < cam.parameters_.width → v < cam.parameters_.height →
      ValidDepth (acc.depth blocking).2 maximum_depth u v →
      column_of cam acc blocking maximum_depth enable_colors u v
        < (point_cloud cam acc blocking maximum_depth false enable_colors).2.cols ∧
      ∀ r, r < 3 →
        (point_cloud cam acc blocking maximum_depth false enable_colors).2.coeff r
            (column_of cam acc blocking maximum_depth enable_colors u v)
          = cam.deprojection_matrix_.coeff r (u * cam.parameters_.height + v)
            * (acc.depth blocking).2.coeff v u) ∧
    (∀ c, c < (point_cloud cam acc blocking maximum_depth false enable_colors).2.cols →
      ∃! q : Nat × Nat,
        (q.1 < cam.parameters_.width ∧ q.2 < cam.parameters_.height ∧
          ValidDepth (acc.depth blocking).2 maximum_depth q.1 q.2) ∧
        column_of cam acc blocking maximum_depth enable_colors q.1 q.2 = c) ∧
    (∀ cam0 : Camera α, evaluate_deprojection_matrix cam0 = some (true, cam) →
      cam0.parameters_.width * cam0.parameters_.height < 2147483648 →
      cam.parameters_.fx = 1 → cam.parameters_.fy = 1 →
      cam.parameters_.cx = 0 → cam.parameters_.cy = 0 →
      (acc.depth blocking).2.coeff 0 0 = 2 →
      (∀ u v, u < cam.parameters_.width → v < cam.parameters_.height →
        ValidDepth (acc.depth blocking).2 maximum_depth u v → u = 0 ∧ v = 0) →
      (point_cloud cam acc blocking maximum_depth false enable_colors).2.cols = 1 ∧
      (point_cloud cam acc blocking maximum_depth false enable_colors).2.coeff 0 0 = 0 ∧
      (point_cloud cam acc blocking maximum_depth false enable_colors).2.coeff 1 0 = 0 ∧
      (point_cloud cam acc blocking maximum_depth false enable_colors).2.coeff 2 0 = 2) := by
  obtain ⟨hcond, heq⟩ := point_cloud_success cam acc blocking maximum_depth false
    enable_colors hok
  obtain ⟨_, hc, hcol⟩ := filledCloud_inv cam acc blocking maximum_depth enable_colors
  rw [heq, if_neg (by simp)]
  have hpts : ∀ u v, u < cam.parameters_.width → v < cam.parameters_.height →
      ValidDepth (acc.depth blocking).2 maximum_depth u v →
      column_of cam acc blocking maximum_depth enable_colors u v
        < (filledCloud cam acc blocking maximum_depth enable_colors).cols ∧
      ∀ r, r < 3 →
        (filledCloud cam acc blocking maximum_depth enable_colors).coeff r
            (column_of cam acc blocking maximum_depth enable_colors u v)
          = cam.deprojection_matrix_.coeff r (u * cam.parameters_.height + v)
            * (acc.depth blocking).2.coeff v u := by
    intro u v hu hv hval
    have hm : (u, v) ∈ validPixels cam.parameters_ (acc.depth blocking).2 maximum_depth :=
      (mem_validPixels _ _ _ (u, v)).mpr ⟨hu, hv, hval⟩
    rw [column_of_eq cam acc blocking maximum_depth enable_colors u v hu hv, hc]
    exact ⟨validBefore_lt_card _ _ _ v u hm, (hcol (u, v) hm).1⟩
  refine ⟨hpts, ?_, ?_⟩
  · intro c hlt
    rw [hc] at hlt
    obtain ⟨q, ⟨hq, hqc⟩, huniq⟩ :=
      validBefore_existsUnique cam.parameters_ (acc.depth blocking).2 maximum_depth c hlt
    have hq' := (mem_validPixels _ _ _ q).mp hq
    refine ⟨q, ⟨hq', ?_⟩, ?_⟩
    · rw [column_of_eq cam acc blocking maximum_depth enable_colors q.1 q.2 hq'.1 hq'.2.1]
      exact hqc
    · rintro q2 ⟨hq2, hqc2⟩
      refine huniq q2 ⟨(mem_validPixels _ _ _ q2).mpr hq2, ?_⟩
      rw [← column_of_eq cam acc blocking maximum_depth enable_colors q2.1 q2.2 hq2.1 hq2.2.1]
      exact hqc2
  · intro cam0 hev hsz hfx hfy hcx hcy hd honly
    obtain ⟨hpar, hdm⟩ := evaluate_deprojection_matrix_columns cam0 cam true hev hsz
    have hV : validPixels cam.parameters_ (acc.depth blocking).2 maximum_depth = {(0, 0)} := by
      obtain ⟨q, hq⟩ := Finset.card_pos.mp (Nat.pos_of_ne_zero hcond.2.2.2.1)
      have hq' := (mem_validPixels _ _ _ q).mp hq
      have hq0 : q = (0, 0) :=
        Prod.ext (honly q.1 q.2 hq'.1 hq'.2.1 hq'.2.2).1 (honly q.1 q.2 hq'.1 hq'.2.1 hq'.2.2).2
      rw [Finset.eq_singleton_iff_unique_mem]
      refine ⟨hq0 ▸ hq, fun x hx => ?_⟩
      have hx' := (mem_validPixels _ _ _ x).mp hx
      exact Prod.ext (honly x.1 x.2 hx'.1 hx'.2.1 hx'.2.2).1
        (honly x.1 x.2 hx'.1 hx'.2.1 hx'.2.2).2
    have hm : ((0 : Nat), (0 : Nat)) ∈
        validPixels cam.parameters_ (acc.depth blocking).2 maximum_depth := by
      rw [hV]
      exact Finset.mem_singleton_self _
    have hm' := (mem_validPixels _ _ _ (0, 0)).mp hm
    have hcol0 : column_of cam acc blocking maximum_depth enable_colors 0 0 = 0 := by
      rw [column_of_eq cam acc blocking maximum_depth enable_colors 0 0 hm'.1 hm'.2.1]
      exact validBefore_zero _ _ _
    have h00 := (hpts 0 0 hm'.1 hm'.2.1 hm'.2.2).2
    rw [hcol0] at h00
    have hray := hdm 0 0 (hpar ▸ hm'.1) (hpar ▸ hm'.2.1)
    rw [← hpar, hfx, hfy, hcx, hcy] at hray
    simp only [Nat.zero_mul, Nat.add_zero] at hray
    refine ⟨by rw [hc, hV, Finset.card_singleton], ?_, ?_, ?_⟩
    · rw [h00 0 (by omega)]
      simp only [Nat.zero_mul, Nat.add_zero]
      rw [hray.1, hd]
      simp
    · rw [h00 1 (by omega)]
      simp only [Nat.zero_mul, Nat.add_zero]
      rw [hray.2.1, hd]
      simp
    · rw [h00 2 (by omega)]
      simp only [Nat.zero_mul, Nat.add_zero]
      rw [hray.2.2, hd]
      simp

theorem ratFrames_point_cloud_ok :
    (point_cloud ratCamera ratFrames true 10 false false).1 = true := by
  rw [point_cloud_eq, if_pos]
  refine ⟨by simp, rfl, by simp, ?_, rfl⟩
  refine Finset.card_ne_zero_of_mem
    ((mem_validPixels _ _ _ (0, 0)).mpr ⟨by decide, by decide, ?_⟩)
  norm_num [ValidDepth, ratFrames]

theorem ratFrames_only_valid (u v : Nat)
    (hval : ValidDepth (ratFrames.depth true).2 10 u v) : u = 0 ∧ v = 0 := by
  by_contra hne
  have hne' : ¬ (v = 0 ∧ u = 0) := fun h => hne ⟨h.2, h.1⟩
  have h0 : (ratFrames.depth true).2.coeff v u = 0 := by
    simp [ratFrames, hne']
  unfold ValidDepth at hval
  rw [h0] at hval
  exact absurd hval.1 (lt_irrefl 0)

/-- Witness of claim C3: over the rationals, `fx = fy = 1`, `cx = cy = 0`, a single valid pixel
`(0, 0)` of depth 2: the output is the single column `(0, 0, 2)`. -/
theorem C3_point_cloud_points_witness :
    (point_cloud ratCamera ratFrames true 10 false false).1 = true ∧
    (point_cloud ratCamera ratFrames true 10 false false).2.cols = 1 ∧
    (point_cloud ratCamera ratFrames true 10 false false).2.coeff 0 0 = 0 ∧
    (point_cloud ratCamera ratFrames true 10 false false).2.coeff 1 0 = 0 ∧
    (point_cloud ratCamera ratFrames true 10 false false).2.coeff 2 0 = 2 :=
  ⟨ratFrames_point_cloud_ok,
    (C3_point_cloud_points ratCamera ratFrames true 10 false ratFrames_point_cloud_ok).2.2
      ratCamera0 rfl (by decide) rfl rfl rfl rfl (by simp [ratFrames])
      (fun u v _ _ hval => ratFrames_only_valid u v hval)⟩

end PointCloudField

/-! ## Claims on `step_frame` -/

section StepFrame

variable {α : Type}

theorem step_frame_offline_eq (cam : Camera α) (hoff : cam.offline_mode_ = true)
    (hlo : -2147483648 ≤ cam.frame_index_) (hhi : cam.frame_index_ + 2 < 2147483648) :
    step_frame cam =
      if cam.frame_index_ + 2 > (cam.data_.cols : Int) then
        (false, { cam with frame_index_ := cam.frame_index_ + 1, status_ := false })
      else (true, { cam with frame_index_ := cam.frame_index_ + 1 }) := by
  unfold step_frame is_offline
  rw [hoff, if_pos rfl]
  simp only
  rw [wrapInt32_of_range (cam.frame_index_ + 1) (by omega) (by omega),
    wrapInt32_of_range (cam.frame_index_ + 1 + 1) (by omega) (by omega)]
  have h2 : cam.frame_index_ + 1 + 1 = cam.frame_index_ + 2 := by ring
  rw [h2]

/-- Claim C9: for an offline camera with `n` table columns and frame index `i` (with `i + 2` in the
range of a 32 bit signed integer), `step_frame` sets the frame index to `i + 1`; it returns
success, leaving the status unchanged, iff `i + 1 ≤ n - 1`; otherwise it returns failure and
sets the status to false, the frame index staying at `i + 1`.  On an empty table the first step
after `reset` fails. -/
theorem C9_step_frame (cam : Camera α) (hoff : cam.offline_mode_ = true)
    (hlo : -2147483648 ≤ cam.frame_index_) (hhi : cam.frame_index_ + 2 < 2147483648) :
    (step_frame cam).2.frame_index_ = cam.frame_index_ + 1 ∧
    ((step_frame cam).1 = true ↔ cam.frame_index_ + 1 ≤ (cam.data_.cols : Int) - 1) ∧
    ((step_frame cam).1 = true → (step_frame cam).2.status_ = cam.status_) ∧
    ((step_frame cam).1 = false → (step_frame cam).2.status_ = false) ∧
    (cam.data_.cols = 0 → (step_frame (reset cam).2).1 = false) := by
  have hreset : cam.data_.cols = 0 → (step_frame (reset cam).2).1 = false := by
    intro h0
    have hr : (reset cam).2 = { cam with frame_index_ := -1, status_ := true } := by
      unfold reset is_offline
      rw [hoff, if_pos rfl]
    have hlo' : (-2147483648 : Int) ≤ -1 := by decide
    have hhi' : (-1 : Int) + 2 < 2147483648 := by decide
    rw [hr, step_frame_offline_eq { cam with frame_index_ := -1, status_ := true } hoff
      hlo' hhi']
    simp [h0]
  rw [step_frame_offline_eq cam hoff hlo hhi]
  by_cases h : cam.frame_index_ + 2 > (cam.data_.cols : Int)
  · rw [if_pos h]
    refine ⟨rfl, ?_, ?_, fun _ => rfl, hreset⟩
    · constructor
      · intro hc
        exact absurd hc (by simp)
      · intro hc
        omega
    · intro hc
      exact absurd hc (by simp)
  · rw [if_neg h]
    refine ⟨rfl, ?_, fun _ => rfl, ?_, hreset⟩
    · constructor
      · intro _
        omega
      · intro _
        rfl
    · intro hc
      exact absurd hc (by simp)

/-- Witness of claim C9: a table of 3 columns at frame index 1 (the step succeeds) and at frame
index 2 (the step fails). -/
theorem C9_step_frame_witness :
    (step_frame (offlineCamera 3 1)).1 = true ∧
    (step_frame (offlineCamera 3 1)).2.frame_index_ = 2 ∧
    (step_frame (offlineCamera 3 2)).1 = false ∧
    (step_frame (offlineCamera 3 2)).2.frame_index_ = 3 ∧
    (step_frame (offlineCamera 3 2)).2.status_ = false :=
  ⟨(C9_step_frame (offlineCamera 3 1) rfl (by decide) (by decide)).2.1.mpr (by decide),
    (C9_step_frame (offlineCamera 3 1) rfl (by decide) (by decide)).1,
    by decide,
    (C9_step_frame (offlineCamera 3 2) rfl (by decide) (by decide)).1,
    (C9_step_frame (offlineCamera 3 2) rfl (by decide) (by decide)).2.2.2.1 (by decide)⟩

theorem step_frames_succ (k : Nat) (cam : Camera α) :
    step_frames (k + 1) cam = (step_frame (step_frames k cam)).2 := rfl

/-- From the last column on, `k` steps leave an offline camera `k` frames past the last column. -/
theorem step_frames_past_end (cam : Camera α) (hoff : cam.offline_mode_ = true)
    (hidx : cam.frame_index_ = (cam.data_.cols : Int) - 1) (k : Nat)
    (hrange : cam.data_.cols + k + 1 < 2147483648) :
    (step_frames k cam).offline_mode_ = true ∧
    (step_frames k cam).data_ = cam.data_ ∧
    (step_frames k cam).frame_index_ = (cam.data_.cols : Int) - 1 + k := by
  induction k with
  | zero => exact ⟨hoff, rfl, by simp [step_frames, forLoop, hidx]⟩
  | succ k ih =>
    obtain ⟨h1, h2, h3⟩ := ih (by omega)
    rw [step_frames_succ, step_frame_offline_eq _ h1 (by omega) (by omega)]
    split
    · exact ⟨h1, h2, by simp only [h3]; push_cast; ring⟩
    · exact ⟨h1, h2, by simp only [h3]; push_cast; ring⟩

/-- Claim C10: for an offline camera whose frame index is the last column index of its table,
`step_frame` returns failure and sets the status to false, and so does every later call of
`step_frame` with nothing else in between: the call after `k` further calls fails with status
false (as long as the frame index stays in the range of a 32 bit signed integer). -/
theorem C10_step_frame_exhausted (cam : Camera α) (hoff : cam.offline_mode_ = true)
    (hidx : cam.frame_index_ = (cam.data_.cols : Int) - 1) (k : Nat)
    (hrange : cam.data_.cols + k + 2 < 2147483648) :
    (step_frame (step_frames k cam)).1 = false ∧
    (step_frame (step_frames k cam)).2.status_ = false ∧
    status (step_frame (step_frames k cam)).2 = false := by
  obtain ⟨h1, h2, h3⟩ := step_frames_past_end cam hoff hidx k (by omega)
  rw [step_frame_offline_eq _ h1 (by omega) (by omega)]
  have hgt : (step_frames k cam).frame_index_ + 2 > ((step_frames k cam).data_.cols : Int) := by
    rw [h2, h3]
    omega
  rw [if_pos hgt]
  exact ⟨rfl, rfl, rfl⟩

/-- Witness of claim C10: a table of 3 columns at frame index 2; the first call and the call after
4 further calls fail. -/
theorem C10_step_frame_exhausted_witness :
    (offlineCamera 3 2).frame_index_ = ((offlineCamera 3 2).data_.cols : Int) - 1 ∧
    (step_frame (step_frames 0 (offlineCamera 3 2))).1 = false ∧
    (step_frame (step_frames 4 (offlineCamera 3 2))).1 = false ∧
    (step_frame (step_frames 4 (offlineCamera 3 2))).2.status_ = false :=
  ⟨by decide,
    (C10_step_frame_exhausted (offlineCamera 3 2) rfl (by decide) 0 (by decide)).1,
    (C10_step_frame_exhausted (offlineCamera 3 2) rfl (by decide) 4 (by decide)).1,
    (C10_step_frame_exhausted (offlineCamera 3 2) rfl (by decide) 4 (by decide)).2.1⟩

end StepFrame

/-! ## Claims on `set_frame_index`, `reset` and `frame_index` -/

section FrameIndex

variable {α : Type}

/-- Claim C11: for every 32 bit signed index `i`, `set_frame_index i` returns success and stores
the frame index `-1` when `i < 0` and `i` itself when `0 ≤ i`, whatever the number of columns of
the table; nothing else changes. -/
theorem C11_set_frame_index (cam : Camera α) (i : Int)
    (_hlo : -2147483648 ≤ i) (_hhi : i < 2147483648) :
    (set_frame_index cam i).1 = true ∧
    (i < 0 → (set_frame_index cam i).2.frame_index_ = -1) ∧
    (0 ≤ i → (set_frame_index cam i).2.frame_index_ = i) ∧
    (set_frame_index cam i).2 = { cam with frame_index_ := (set_frame_index cam i).2.frame_index_ } := by
  refine ⟨rfl, fun h => ?_, fun h => ?_, rfl⟩
  · simp [set_frame_index, h]
  · have h' : ¬ i < 0 := by omega
    simp [set_frame_index, h']

/-- Witness of claim C11: index `-5` becomes `-1`; index `7` is stored although the table has 3
columns. -/
theorem C11_set_frame_index_witness :
    (set_frame_index (offlineCamera 3 0) (-5)).2.frame_index_ = -1 ∧
    (set_frame_index (offlineCamera 3 0) 7).2.frame_index_ = 7 ∧
    (set_frame_index (offlineCamera 3 0) 7).1 = true :=
  ⟨(C11_set_frame_index (offlineCamera 3 0) (-5) (by decide) (by decide)).2.1 (by decide),
    (C11_set_frame_index (offlineCamera 3 0) 7 (by decide) (by decide)).2.2.1 (by decide),
    (C11_set_frame_index (offlineCamera 3 0) 7 (by decide) (by decide)).1⟩

/-- Claim C12: from every state `reset` returns success and sets the status to running; for an
offline camera it sets the frame index to `-1`, so that the next `step_frame` lands on index 0
(and succeeds iff the table has a column); for a live camera the stored frame index is kept. -/
theorem C12_reset (cam : Camera α) :
    (reset cam).1 = true ∧ status (reset cam).2 = true ∧
    (cam.offline_mode_ = true →
      (reset cam).2.frame_index_ = -1 ∧
      (step_frame (reset cam).2).2.frame_index_ = 0 ∧
      ((step_frame (reset cam).2).1 = true ↔ 0 < cam.data_.cols)) ∧
    (cam.offline_mode_ = false → (reset cam).2.frame_index_ = cam.frame_index_) := by
  refine ⟨rfl, rfl, fun hoff => ?_, fun hlive => ?_⟩
  · have hr : (reset cam).2 = { cam with frame_index_ := -1, status_ := true } := by
      unfold reset is_offline
      rw [hoff, if_pos rfl]
    have hlo' : (-2147483648 : Int) ≤ -1 := by decide
    have hhi' : (-1 : Int) + 2 < 2147483648 := by decide
    rw [hr, step_frame_offline_eq { cam with frame_index_ := -1, status_ := true } hoff
      hlo' hhi']
    refine ⟨rfl, ?_, ?_⟩
    · split <;> rfl
    · by_cases hc : 0 < cam.data_.cols
      · have hle : ¬ ((-1 : Int) + 2 > (cam.data_.cols : Int)) := by omega
        rw [if_neg hle]
        exact ⟨fun _ => hc, fun _ => rfl⟩
      · have hgt : (-1 : Int) + 2 > (cam.data_.cols : Int) := by omega
        rw [if_pos hgt]
        exact ⟨fun h => absurd h (by simp), fun h => absurd h hc⟩
  · unfold reset is_offline
    rw [hlive]
    rfl

/-- Witness of claim C12: an offline camera at index 2 of a table of 3 columns, and a live
camera. -/
theorem C12_reset_witness :
    (reset (offlineCamera 3 2)).2.frame_index_ = -1 ∧
    (step_frame (reset (offlineCamera 3 2)).2).2.frame_index_ = 0 ∧
    (step_frame (reset (offlineCamera 3 2)).2).1 = true ∧
    (reset intCamera0).2.frame_index_ = intCamera0.frame_index_ :=
  ⟨((C12_reset (offlineCamera 3 2)).2.2.1 rfl).1,
    ((C12_reset (offlineCamera 3 2)).2.2.1 rfl).2.1,
    ((C12_reset (offlineCamera 3 2)).2.2.1 rfl).2.2.mpr (by decide),
    (C12_reset intCamera0).2.2.2 rfl⟩

/-- Claim C13: for a live camera `step_frame` returns success and changes nothing, and
`frame_index` returns `-1` whatever index `set_frame_index` stored; for an offline camera
`frame_index` returns the stored frame index. -/
theorem C13_live_camera (cam : Camera α) :
    (cam.offline_mode_ = false →
      step_frame cam = (true, cam) ∧ frame_index cam = -1 ∧
      ∀ i : Int, frame_index (set_frame_index cam i).2 = -1) ∧
    (cam.offline_mode_ = true →
      frame_index cam = cam.frame_index_ ∧
      ∀ i : Int, 0 ≤ i → frame_index (set_frame_index cam i).2 = i) := by
  refine ⟨fun hlive => ⟨?_, ?_, fun i => ?_⟩, fun hoff => ⟨?_, fun i hi => ?_⟩⟩
  · simp [step_frame, is_offline, hlive]
  · simp [frame_index, is_offline, hlive]
  · simp [frame_index, set_frame_index, is_offline, hlive]
  · simp [frame_index, is_offline, hoff]
  · have h' : ¬ i < 0 := by omega
    simp [frame_index, set_frame_index, is_offline, hoff, h']

/-- Witness of claim C13: the live camera `intCamera0` after `set_frame_index 4`, and an offline
camera at index 2. -/
theorem C13_live_camera_witness :
    step_frame intCamera0 = (true, intCamera0) ∧
    frame_index (set_frame_index intCamera0 4).2 = -1 ∧
    frame_index (offlineCamera 3 2) = 2 :=
  ⟨((C13_live_camera intCamera0).1 rfl).1,
    ((C13_live_camera intCamera0).1 rfl).2.2 4,
    ((C13_live_camera (offlineCamera 3 2)).2 rfl).1⟩

end FrameIndex

/-! ## The loader -/

section Loader

variable {α : Type}

theorem MatrixX.writeLinear_eq_set (m : MatrixX α) (fl ff : Nat) (x : α)
    (hfl : fl < m.cols) (hff : ff < m.rows) :
    m.writeLinear (m.rows * fl + ff) x = m.set ff fl x := by
  have h1 : m.rows * (fl + 1) ≤ m.rows * m.cols := Nat.mul_le_mul_left _ hfl
  have h2 : m.rows * (fl + 1) = m.rows * fl + m.rows := by ring
  have hlt : m.rows * fl + ff < m.rows * m.cols := by omega
  unfold MatrixX.writeLinear
  rw [if_pos hlt, Nat.mul_add_mod, Nat.mod_eq_of_lt hff, Nat.mul_add_div (by omega),
    Nat.div_eq_of_lt hff, Nat.add_zero]

/-- The loop over the words of a line returns when every word is a number, and then
`found_fields` has grown by the number of words. -/
theorem readFields_found (stod : List Char → Option α) (k fl : Nat) (ws : List (List Char))
    (hnum : ∀ w ∈ ws, (stod w).isSome = true) (st : MatrixX α × Nat) :
    ∃ data, readFields stod k fl ws st = some (data, st.2 + ws.length) := by
  induction ws generalizing st with
  | nil => exact ⟨st.1, rfl⟩
  | cons w rest ih =>
    obtain ⟨x, hx⟩ := Option.isSome_iff_exists.mp (hnum w (List.mem_cons_self _ _))
    obtain ⟨data, hd⟩ := ih (fun w' hw' => hnum w' (List.mem_cons_of_mem _ hw'))
      (st.1.writeLinear (k * fl + st.2) x, st.2 + 1)
    refine ⟨data, ?_⟩
    rw [readFields, hx]
    simp only
    rw [hd, List.length_cons]
    simp only [Option.some.injEq, Prod.mk.injEq, true_and]
    omega

/-- A line whose number of fields is not `num_fields` makes the loop over the lines return
failure with the empty table. -/
theorem loadLines_mismatch [Zero α] (stod : List Char → Option α) (k : Nat)
    (lines : List (List Char)) (hnum : NumericFields stod lines)
    (hbad : ∃ line ∈ lines, (words line).length ≠ k) (data : MatrixX α) (fl : Nat) :
    loadLines stod k lines data fl = some (false, MatrixX.empty) := by
  induction lines generalizing data fl with
  | nil =>
    obtain ⟨line, hmem, _⟩ := hbad
    exact absurd hmem (List.not_mem_nil _)
  | cons line rest ih =>
    obtain ⟨d1, hd1⟩ := readFields_found stod k fl (words line)
      (hnum line (List.mem_cons_self _ _)) (data, 0)
    rw [loadLines, hd1]
    simp only [Nat.zero_add]
    by_cases hk : k ≠ (words line).length
    · rw [if_pos hk]
    · rw [if_neg hk]
      refine ih (fun l hl => hnum l (List.mem_cons_of_mem _ hl)) ?_ d1 (fl + 1)
      obtain ⟨bad, hmem, hlen⟩ := hbad
      rcases List.mem_cons.mp hmem with h | h
      · subst h
        exact absurd (Ne.symm hlen) hk
      · exact ⟨bad, h, hlen⟩

/-- The loop over the words of line `fl`, started at field `ff` inside a `k x m` table: the words
are stored in column `fl` from row `ff` on, and nothing else changes. -/
theorem readFields_spec (stod : List Char → Option α) (fl : Nat) (ws : List (List Char))
    (hnum : ∀ w ∈ ws, (stod w).isSome = true) (data : MatrixX α) (ff : Nat)
    (hfl : fl < data.cols) (hff : ff + ws.length ≤ data.rows) :
    ∃ data', readFields stod data.rows fl ws (data, ff) = some (data', ff + ws.length) ∧
      data'.rows = data.rows ∧ data'.cols = data.cols ∧
      (∀ i (hi : i < ws.length), stod (ws.get ⟨i, hi⟩) = some (data'.coeff (ff + i) fl)) ∧
      (∀ r c, ¬ (c = fl ∧ ff ≤ r) → data'.coeff r c = data.coeff r c) := by
  induction ws generalizing data ff with
  | nil =>
    exact ⟨data, rfl, rfl, rfl, fun i hi => absurd hi (Nat.not_lt_zero _), fun _ _ _ => rfl⟩
  | cons w rest ih =>
    obtain ⟨x, hx⟩ := Option.isSome_iff_exists.mp (hnum w (List.mem_cons_self _ _))
    rw [List.length_cons] at hff
    have hffl : ff < data.rows := by omega
    obtain ⟨data', hd, hr, hc, hval, hother⟩ := ih
      (fun w' hw' => hnum w' (List.mem_cons_of_mem _ hw')) (data.set ff fl x) (ff + 1)
      (by simpa using hfl) (by simp only [MatrixX.rows_set]; omega)
    simp only [MatrixX.rows_set, MatrixX.cols_set] at hd hr hc
    refine ⟨data', ?_, hr, hc, ?_, ?_⟩
    · rw [readFields, hx]
      simp only
      rw [MatrixX.writeLinear_eq_set data fl ff x hfl hffl, hd, List.length_cons]
      simp only [Option.some.injEq, Prod.mk.injEq, true_and]
      omega
    · intro i hi
      cases i with
      | zero =>
        show stod w = some (data'.coeff (ff + 0) fl)
        rw [hx, Nat.add_zero, hother ff fl (by omega),
          MatrixX.coeff_set_same data ff fl x hffl hfl]
      | succ i =>
        have hi' : i < rest.length := by simpa using hi
        show stod (rest.get ⟨i, hi'⟩) = some (data'.coeff (ff + (i + 1)) fl)
        rw [hval i hi']
        congr 2
        omega
    · intro r c hrc
      rw [hother r c (by omega), MatrixX.coeff_set data ff fl x hffl hfl, if_neg]
      rintro ⟨h1, h2⟩
      exact hrc ⟨h2, by omega⟩

/-- The loop over the lines, all of `k` numeric fields, from line `fl` on inside a `k x m` table:
it returns success, and column `fl + j` holds the fields of the `j`-th remaining line. -/
theorem loadLines_spec [Zero α] (stod : List Char → Option α) (lines : List (List Char))
    (hnum : NumericFields stod lines) (data : MatrixX α) (fl : Nat)
    (hlen : ∀ line ∈ lines, (words line).length = data.rows)
    (hcols : fl + lines.length ≤ data.cols) :
    ∃ data', loadLines stod data.rows lines data fl = some (true, data') ∧
      data'.rows = data.rows ∧ data'.cols = data.cols ∧
      (∀ j (hj : j < lines.length) r (hr : r < (words (lines.get ⟨j, hj⟩)).length),
        stod ((words (lines.get ⟨j, hj⟩)).get ⟨r, hr⟩) = some (data'.coeff r (fl + j))) ∧
      (∀ r c, c < fl → data'.coeff r c = data.coeff r c) := by
  induction lines generalizing data fl with
  | nil =>
    exact ⟨data, rfl, rfl, rfl, fun j hj => absurd hj (Nat.not_lt_zero _), fun _ _ _ => rfl⟩
  | cons line rest ih =>
    rw [List.length_cons] at hcols
    have hl := hlen line (List.mem_cons_self _ _)
    obtain ⟨d1, hd1, hr1, hc1, hval1, hother1⟩ := readFields_spec stod fl (words line)
      (hnum line (List.mem_cons_self _ _)) data 0 (by omega) (by omega)
    obtain ⟨data', hd, hr, hc, hval, hother⟩ := ih
      (fun l hl' => hnum l (List.mem_cons_of_mem _ hl')) d1 (fl + 1)
      (fun l hl' => by rw [hr1]; exact hlen l (List.mem_cons_of_mem _ hl'))
      (by rw [hc1]; omega)
    rw [hr1] at hd hr
    rw [hc1] at hc
    refine ⟨data', ?_, hr, hc, ?_, ?_⟩
    · rw [loadLines, hd1]
      simp only [Nat.zero_add]
      rw [if_neg (by simp [hl]), hd]
    · intro j hj r hr'
      cases j with
      | zero =>
        have hr1' : r < (words line).length := hr'
        show stod ((words line).get ⟨r, hr1'⟩) = some (data'.coeff r (fl + 0))
        have h := hval1 r hr1'
        rw [Nat.zero_add] at h
        rw [h, Nat.add_zero, hother r fl (by omega)]
      | succ j =>
        have hj' : j < rest.length := by simpa using hj
        have hr2 : r < (words (rest.get ⟨j, hj'⟩)).length := hr'
        show stod ((words (rest.get ⟨j, hj'⟩)).get ⟨r, hr2⟩)
          = some (data'.coeff r (fl + (j + 1)))
        rw [hval j hj' r hr2]
        congr 2
        omega
    · intro r c hc'
      rw [hother r c (by omega), hother1 r c (by omega)]

/-- The table that `load_data` returns for lines of `k` numeric fields, read by position: the
word at place `r` of the line at place `j` is the text of entry `(r, j)`. -/
theorem load_data_lookup [Zero α] (prims : Primitives α) (auxiliary_data_size : Nat)
    (lines : List (List Char)) (hnum : NumericFields prims.stod lines)
    (hlen : ∀ line ∈ lines, (words line).length = standard_data_offset_ + auxiliary_data_size) :
    ∃ data, load_data prims auxiliary_data_size (some lines) = some (true, data) ∧
      data.rows = standard_data_offset_ + auxiliary_data_size ∧ data.cols = lines.length ∧
      ∀ j line r w, lines[j]? = some line → (words line)[r]? = some w →
        prims.stod w = some (data.coeff r j) := by
  obtain ⟨data, hd, hr, hc, hval, _⟩ := loadLines_spec prims.stod lines hnum
    ((MatrixX.empty : MatrixX α).resize (standard_data_offset_ + auxiliary_data_size)
      lines.length) 0 hlen (by simp [MatrixX.resize])
  refine ⟨data, hd, hr, hc, fun j line r w hj hw => ?_⟩
  obtain ⟨hj', hje⟩ := List.getElem?_eq_some.mp hj
  subst hje
  obtain ⟨hr', hre⟩ := List.getElem?_eq_some.mp hw
  subst hre
  have h := hval j hj' r hr'
  rw [Nat.zero_add] at h
  exact h

/-- A line whose number of fields is not `num_fields` makes `load_data` return failure with the
empty table. -/
theorem load_data_mismatch [Zero α] (prims : Primitives α) (auxiliary_data_size : Nat)
    (lines : List (List Char)) (hnum : NumericFields prims.stod lines)
    (hbad : ∃ line ∈ lines, (words line).length ≠ standard_data_offset_ + auxiliary_data_size) :
    load_data prims auxiliary_data_size (some lines) = some (false, MatrixX.empty) :=
  loadLines_mismatch prims.stod _ lines hnum hbad _ 0

/-- Claim C14, as stated, is refuted: the single line of the text `nonNumericText` has 4 fields,
not 8, and every store of the call is inside the `8 x 1` table, yet `load_data` does not return
failure with an empty table: `std::stod` throws at the field `abc` and `load_data` returns
nothing. -/
theorem C14_non_numeric_field_counterexample :
    (∃ line ∈ nonNumericText, (words line).length ≠ 1 + 3 + 4 + 0) ∧
    words "0 1 2 abc".toList = ["0".toList, "1".toList, "2".toList, "abc".toList] ∧
    intPrims.stod "abc".toList = none ∧
    StoresInTable intPrims 0 nonNumericText ∧
    load_data intPrims 0 (some nonNumericText) = none ∧
    load_data intPrims 0 (some nonNumericText) ≠ some (false, MatrixX.empty) := by
  have hnone : load_data intPrims 0 (some nonNumericText) = none :=
    Option.isNone_iff_eq_none.mp (by decide)
  refine ⟨by decide, by decide, by decide, by unfold StoresInTable; decide, hnone, ?_⟩
  rw [hnone]
  exact fun h => Option.noConfusion h

/-- Claim C14, amended: when every field of a dataset text is a number, at least one line has a
number of fields different from `1 + 3 + 4 + auxiliary_size`, too few or too many, and every
store of the call is inside the table, `load_data` returns failure with the empty `0 x 0`
table, whatever the other lines are.  Nothing is said here of a text with a store past the end
of the table. -/
theorem C14_mismatch_inside_the_table [Zero α] (prims : Primitives α)
    (auxiliary_data_size : Nat) (lines : List (List Char))
    (hnum : NumericFields prims.stod lines)
    (hbad : ∃ line ∈ lines, (words line).length ≠ 1 + 3 + 4 + auxiliary_data_size)
    (_hin : StoresInTable prims auxiliary_data_size lines) :
    load_data prims auxiliary_data_size (some lines) = some (false, MatrixX.empty) ∧
    (MatrixX.empty : MatrixX α).rows = 0 ∧ (MatrixX.empty : MatrixX α).cols = 0 :=
  ⟨load_data_mismatch prims auxiliary_data_size lines hnum hbad, rfl, rfl⟩

/-- Witness of claim C14 as amended: a text whose second line has 4 fields, and a text of two
lines whose first line has 9 fields, the ninth of which is stored in the second column of the
`8 x 2` table. -/
theorem C14_mismatch_inside_the_table_witness :
    NumericFields intPrims.stod shortLineText ∧ StoresInTable intPrims 0 shortLineText ∧
    load_data intPrims 0 (some shortLineText) = some (false, MatrixX.empty) ∧
    NumericFields intPrims.stod overfullLineText ∧ StoresInTable intPrims 0 overfullLineText ∧
    load_data_writes intPrims 0 (some overfullLineText) = [0, 1, 2, 3, 4, 5, 6, 7, 8] ∧
    load_data intPrims 0 (some overfullLineText) = some (false, MatrixX.empty) :=
  ⟨by unfold NumericFields; decide, by unfold StoresInTable; decide,
    (C14_mismatch_inside_the_table intPrims 0 shortLineText (by unfold NumericFields; decide)
      (by decide) (by unfold StoresInTable; decide)).1,
    by unfold NumericFields; decide, by unfold StoresInTable; decide, by decide,
    (C14_mismatch_inside_the_table intPrims 0 overfullLineText
      (by unfold NumericFields; decide) (by decide) (by unfold StoresInTable; decide)).1⟩

/-- Claim C15: for a dataset text of `m` lines, each of exactly `k = 1 + 3 + 4 + auxiliary_size`
numeric fields, `load_data` succeeds and returns a `k x m` table whose entry `(r, c)` is the
value of field `r` of line `c`. -/
theorem C15_load_data_table [Zero α] (prims : Primitives α) (auxiliary_data_size : Nat)
    (lines : List (List Char)) (hnum : NumericFields prims.stod lines)
    (hlen : ∀ line ∈ lines, (words line).length = 1 + 3 + 4 + auxiliary_data_size) :
    ∃ data, load_data prims auxiliary_data_size (some lines) = some (true, data) ∧
      data.rows = 1 + 3 + 4 + auxiliary_data_size ∧ data.cols = lines.length ∧
      ∀ c (hc : c < lines.length) r (hr : r < (words (lines.get ⟨c, hc⟩)).length),
        prims.stod ((words (lines.get ⟨c, hc⟩)).get ⟨r, hr⟩) = some (data.coeff r c) := by
  obtain ⟨data, hd, hr, hc, hval, _⟩ := loadLines_spec prims.stod lines hnum
    ((MatrixX.empty : MatrixX α).resize (standard_data_offset_ + auxiliary_data_size)
      lines.length) 0 hlen (by simp [MatrixX.resize])
  refine ⟨data, hd, hr, hc, fun c hc' r hr' => ?_⟩
  have h := hval c hc' r hr'
  rw [Nat.zero_add] at h
  exact h

/-- Witness of claim C15: a text of two lines of 8 fields gives an `8 x 2` table. -/
theorem C15_load_data_table_witness :
    NumericFields intPrims.stod goodText ∧
    (∀ line ∈ goodText, (words line).length = 1 + 3 + 4 + 0) ∧
    ∃ data, load_data intPrims 0 (some goodText) = some (true, data) ∧
      data.rows = 1 + 3 + 4 + 0 ∧ data.cols = goodText.length ∧
      ∀ c (hc : c < goodText.length) r (hr : r < (words (goodText.get ⟨c, hc⟩)).length),
        intPrims.stod ((words (goodText.get ⟨c, hc⟩)).get ⟨r, hr⟩) = some (data.coeff r c) :=
  ⟨by unfold NumericFields; decide, by decide,
    C15_load_data_table intPrims 0 goodText (by unfold NumericFields; decide) (by decide)⟩

end Loader

/-! ## Words of a printed line -/

section Words

theorem wordsAux_spaces (pad s : List Char) (hpad : ∀ c ∈ pad, isspace c = true) :
    wordsAux (pad ++ s) [] = wordsAux s [] := by
  induction pad with
  | nil => rfl
  | cons c pad ih =>
    rw [List.cons_append, wordsAux, if_pos (hpad c (List.mem_cons_self _ _))]
    simp only [List.isEmpty_nil, if_true]
    exact ih (fun c' hc' => hpad c' (List.mem_cons_of_mem _ hc'))

theorem wordsAux_word (w s cur : List Char) (hw : ∀ c ∈ w, isspace c = false) :
    wordsAux (w ++ s) cur = wordsAux s (cur ++ w) := by
  induction w generalizing cur with
  | nil => simp
  | cons c w ih =>
    have hc : ¬ (isspace c = true) := by
      rw [hw c (List.mem_cons_self _ _)]
      simp
    rw [List.cons_append, wordsAux, if_neg hc,
      ih (cur ++ [c]) (fun c' hc' => hw c' (List.mem_cons_of_mem _ hc'))]
    simp

theorem wordsAux_end (w tail : List Char) (hne : w ≠ []) (htail : SpaceLed tail) :
    wordsAux tail w = w :: wordsAux tail [] := by
  have hemp : w.isEmpty = false := by
    cases w with
    | nil => exact absurd rfl hne
    | cons _ _ => rfl
  cases tail with
  | nil => simp [wordsAux, hemp]
  | cons c t =>
    have hc : isspace c = true := htail c (by simp)
    simp [wordsAux, hc, hemp]

/-- Padding, then a word, then a rest that is empty or starts with white space: the first
extraction delivers the word. -/
theorem wordsAux_padded_word (pad w tail : List Char) (hpad : ∀ c ∈ pad, isspace c = true)
    (hw : IsWord w) (htail : SpaceLed tail) :
    wordsAux (pad ++ (w ++ tail)) [] = w :: wordsAux tail [] := by
  rw [wordsAux_spaces pad _ hpad, wordsAux_word w tail [] hw.2, List.nil_append,
    wordsAux_end w tail hw.1 htail]

theorem spaceLed_cons_space (s : List Char) : SpaceLed (' ' :: s) := by
  intro c hc
  simp only [List.head?_cons, Option.mem_def, Option.some.injEq] at hc
  rw [← hc]
  rfl

theorem spaceLed_nil : SpaceLed [] := by
  intro c hc
  simp at hc

theorem wordsAux_cons_space (s : List Char) : wordsAux (' ' :: s) [] = wordsAux s [] :=
  wordsAux_spaces [' '] s (fun c hc => by
    rw [List.mem_singleton.mp hc]
    rfl)

/-- The words of coefficients printed with padding and joined by `" "`. -/
theorem wordsAux_joinCoeffs {β : Type} (pad put : β → List Char)
    (hpad : ∀ x, ∀ c ∈ pad x, isspace c = true) (hput : ∀ x, IsWord (put x))
    (row : List β) (tail : List Char) (htail : SpaceLed tail) :
    wordsAux (joinCoeffs (row.map (fun x => pad x ++ put x)) ++ tail) []
      = row.map put ++ wordsAux tail [] := by
  induction row with
  | nil => rfl
  | cons x rest ih =>
    cases rest with
    | nil =>
      simp only [List.map_cons, List.map_nil, joinCoeffs, List.append_assoc, List.singleton_append]
      rw [wordsAux_padded_word (pad x) (put x) tail (hpad x) (hput x) htail]
    | cons y rest =>
      simp only [List.map_cons, joinCoeffs, List.append_assoc, List.cons_append]
      rw [wordsAux_padded_word (pad x) (put x) _ (hpad x) (hput x) (spaceLed_cons_space _),
        wordsAux_cons_space]
      simp only [List.map_cons, List.append_assoc, List.cons_append] at ih
      rw [ih]

/-- The words of a formatted row vector are the printed coefficients. -/
theorem wordsAux_formatRow {β : Type} (put : β → List Char) (hput : ∀ x, IsWord (put x))
    (row : List β) (tail : List Char) (htail : SpaceLed tail) :
    wordsAux (formatRow put row ++ tail) [] = row.map put ++ wordsAux tail [] := by
  unfold formatRow
  exact wordsAux_joinCoeffs
    (fun x => List.replicate
      ((row.map (fun x => (put x).length)).foldl max 0 - (put x).length) ' ') put
    (fun x c hc => by
      rw [(List.mem_replicate.mp hc).2]
      rfl) hput row tail htail

theorem wordsAux_first_word (w tail : List Char) (hw : IsWord w) (htail : SpaceLed tail) :
    wordsAux (w ++ tail) [] = w :: wordsAux tail [] :=
  wordsAux_padded_word [] w tail (fun _ hc => absurd hc (List.not_mem_nil _)) hw htail

/-- The words of the line that `log_frame` writes are its fields. -/
theorem words_logLine {α : Type} (prims : Primitives α)
    (hidx : ∀ n, IsWord (prims.put_index n)) (hput : ∀ x, IsWord (prims.put_double x))
    (log_index : Nat) (camera_pose : Transform α) (aux : Bool × List α) :
    words (logLine prims log_index camera_pose aux)
      = logFields prims log_index camera_pose aux := by
  unfold words logLine logFields
  simp only
  rw [wordsAux_first_word _ _ (hidx log_index) (spaceLed_cons_space _), wordsAux_cons_space,
    wordsAux_formatRow prims.put_double hput _ _ (spaceLed_cons_space _), wordsAux_cons_space,
    wordsAux_formatRow prims.put_double hput _ _ (spaceLed_cons_space _), wordsAux_cons_space]
  cases aux.1
  · simp only [Bool.false_eq_true, if_false]
    rw [wordsAux_formatRow prims.put_double hput _ _ spaceLed_nil]
    rfl
  · simp only [if_true]
    rw [wordsAux_formatRow prims.put_double hput _ _ (spaceLed_cons_space _),
      wordsAux_cons_space]
    have h := wordsAux_formatRow prims.put_double hput aux.2 [] spaceLed_nil
    rw [List.append_nil] at h
    rw [h]
    simp [wordsAux]

end Words

/-! ## The recorder -/

section Recorder

variable {α : Type}

theorem log_frame_fail (prims : Primitives α) (cam : Camera α) (acc : FrameAccess α)
    (log_depth : Bool) (h : (acc.rgb true).1 = false ∨ (acc.pose true).1 = false) :
    log_frame prims cam acc log_depth = (false, cam, []) := by
  unfold log_frame
  cases hrgb : (acc.rgb true).1
  · simp [hrgb]
  · rcases h with h | h
    · rw [hrgb] at h
      exact absurd h (by simp)
    · cases log_depth <;> simp [h]

theorem log_frame_ok (prims : Primitives α) (cam : Camera α) (acc : FrameAccess α)
    (log_depth : Bool) (hrgb : (acc.rgb true).1 = true) (hpose : (acc.pose true).1 = true) :
    log_frame prims cam acc log_depth =
      (true,
        { cam with
          log_ := cam.log_.putLine
            (logLine prims cam.log_index_ (acc.pose true).2 (acc.auxiliary_data true))
          log_index_ := cam.log_index_ + 1 },
        [(cam.log_path_ ++ "rgb_".toList ++ prims.to_string cam.log_index_ ++ ".png".toList,
          (acc.rgb true).2)]) := by
  unfold log_frame
  cases log_depth <;> simp [hrgb, hpose]

theorem log_frames_cons (prims : Primitives α) (cam : Camera α) (f : FrameAccess α × Bool)
    (rest : List (FrameAccess α × Bool)) :
    log_frames prims cam (f :: rest) = log_frames prims (log_frame prims cam f.1 f.2).2.1 rest :=
  rfl

/-- A line put on a stream that is open and has no error flag set is appended to its file. -/
theorem putLine_good (s : OfStream) (line : List Char) (hopen : s.is_open = true)
    (hgood : s.fail = false) : s.putLine line = ⟨true, false, s.lines ++ [line]⟩ := by
  unfold OfStream.putLine
  rw [if_pos ⟨hopen, hgood⟩, ← hopen, ← hgood]

/-- A line put on a stream that is not open, or has an error flag set, is lost. -/
theorem putLine_lost (s : OfStream) (line : List Char)
    (h : ¬ (s.is_open = true ∧ s.fail = false)) : (s.putLine line).lines = s.lines := by
  unfold OfStream.putLine
  rw [if_neg h]

/-- The stream of a camera whose log was not open, after a `start_log` that can open the file:
open, without error flag, on an empty file. -/
theorem start_log_fresh (cam : Camera α) (path : List Char) (hclosed : cam.log_.is_open = false) :
    (start_log cam path true).2.log_ = ⟨true, false, []⟩ := by
  unfold start_log OfStream.open_
  simp [hclosed]

/-- With a stream that is open and has no error flag set, successive successful calls of
`log_frame` append the expected lines and count them. -/
theorem log_frames_ok (prims : Primitives α) (frames : List (FrameAccess α × Bool))
    (hall : ∀ f ∈ frames, (f.1.rgb true).1 = true ∧ (f.1.pose true).1 = true)
    (cam : Camera α) (hopen : cam.log_.is_open = true) (hgood : cam.log_.fail = false) :
    (log_frames prims cam frames).log_.lines
      = cam.log_.lines ++ expectedLines prims cam.log_index_ frames ∧
    (log_frames prims cam frames).log_index_ = cam.log_index_ + frames.length := by
  induction frames generalizing cam with
  | nil => exact ⟨by simp [log_frames, expectedLines], rfl⟩
  | cons f rest ih =>
    obtain ⟨hrgb, hpose⟩ := hall f (List.mem_cons_self _ _)
    rw [log_frames_cons, log_frame_ok prims cam f.1 f.2 hrgb hpose]
    have hput := putLine_good cam.log_
      (logLine prims cam.log_index_ (f.1.pose true).2 (f.1.auxiliary_data true)) hopen hgood
    obtain ⟨h1, h2⟩ := ih (fun g hg => hall g (List.mem_cons_of_mem _ hg))
      { cam with
        log_ := cam.log_.putLine
          (logLine prims cam.log_index_ (f.1.pose true).2 (f.1.auxiliary_data true))
        log_index_ := cam.log_index_ + 1 } (by rw [hput]) (by rw [hput])
    refine ⟨?_, ?_⟩
    · rw [h1]
      simp only [hput, expectedLines, List.append_assoc, List.singleton_append]
    · rw [h2, List.length_cons]
      simp only
      omega

theorem expectedLines_length (prims : Primitives α) (i : Nat)
    (frames : List (FrameAccess α × Bool)) :
    (expectedLines prims i frames).length = frames.length := by
  induction frames generalizing i with
  | nil => rfl
  | cons f rest ih => simp [expectedLines, ih]

theorem expectedLines_lookup (prims : Primitives α) (i j : Nat)
    (frames : List (FrameAccess α × Bool)) (f : FrameAccess α × Bool)
    (hf : frames[j]? = some f) :
    (expectedLines prims i frames)[j]?
      = some (logLine prims (i + j) (f.1.pose true).2 (f.1.auxiliary_data true)) := by
  induction frames generalizing i j with
  | nil => simp at hf
  | cons g rest ih =>
    cases j with
    | zero =>
      simp only [List.getElem?_cons_zero, Option.some.injEq] at hf
      simp [expectedLines, hf]
    | succ j =>
      simp only [List.getElem?_cons_succ] at hf
      have h := ih (i + 1) j hf
      have hij : i + 1 + j = i + (j + 1) := by omega
      rw [hij] at h
      simp only [expectedLines, List.getElem?_cons_succ]
      exact h

/-- Claim C19, as stated, is refuted.  On the camera `intCamera0`, whose log is not open, a call
of `log_frame` with colour and pose delivered returns success and increments the counter, yet
appends no line: the log still has none.  And on a camera whose log is open, with one line
written, `start_log` returns success and sets the counter to 0, yet the next successful
`log_frame` appends no line: the log keeps its one line. -/
theorem C19_unopened_log_counterexample :
    (intCamera0.log_.is_open = false ∧
      (intLogFrames.rgb true).1 = true ∧ (intLogFrames.pose true).1 = true ∧
      (log_frame intPrims intCamera0 intLogFrames true).1 = true ∧
      (log_frame intPrims intCamera0 intLogFrames true).2.1.log_index_
        = intCamera0.log_index_ + 1 ∧
      (log_frame intPrims intCamera0 intLogFrames true).2.1.log_.lines = []) ∧
    ((log_frames intPrims (start_log intCamera0 ['d'] true).2 [(intLogFrames, true)]).log_.is_open
        = true ∧
      (log_frames intPrims (start_log intCamera0 ['d'] true).2
        [(intLogFrames, true)]).log_.lines.length = 1 ∧
      (start_log
        (log_frames intPrims (start_log intCamera0 ['d'] true).2 [(intLogFrames, true)])
        ['e'] true).1 = true ∧
      (start_log
        (log_frames intPrims (start_log intCamera0 ['d'] true).2 [(intLogFrames, true)])
        ['e'] true).2.log_index_ = 0 ∧
      (log_frame intPrims
        (start_log
          (log_frames intPrims (start_log intCamera0 ['d'] true).2 [(intLogFrames, true)])
          ['e'] true).2 intLogFrames true).1 = true ∧
      (log_frame intPrims
        (start_log
          (log_frames intPrims (start_log intCamera0 ['d'] true).2 [(intLogFrames, true)])
          ['e'] true).2 intLogFrames true).2.1.log_.lines
        = (log_frames intPrims (start_log intCamera0 ['d'] true).2
            [(intLogFrames, true)]).log_.lines) :=
  ⟨by decide, by decide, by decide, by decide, by decide, by decide, rfl⟩

/-- Claim C19, amended: `log_frame` returns failure and leaves the camera, hence the log and the
frame counter, as they are when the colour accessor or the pose accessor fails; otherwise it
returns success and increments the counter by one, and it appends exactly one line, which starts
with the current counter followed by a space, when the log is open and has no error flag set,
and no line otherwise.  After a `start_log` that opens the file, on a camera whose log was not
open, which sets the counter to 0, the `n`-th line written (counted from 0) starts with the
counter `n`. -/
theorem C19_log_frame_open_log (prims : Primitives α) (cam : Camera α) (acc : FrameAccess α)
    (log_depth : Bool) :
    (((acc.rgb true).1 = false ∨ (acc.pose true).1 = false) →
      (log_frame prims cam acc log_depth).1 = false ∧
      (log_frame prims cam acc log_depth).2.1 = cam) ∧
    ((acc.rgb true).1 = true → (acc.pose true).1 = true →
      (log_frame prims cam acc log_depth).1 = true ∧
      (log_frame prims cam acc log_depth).2.1.log_index_ = cam.log_index_ + 1 ∧
      (cam.log_.is_open = true → cam.log_.fail = false →
        ∃ rest, (log_frame prims cam acc log_depth).2.1.log_.lines
          = cam.log_.lines ++ [prims.put_index cam.log_index_ ++ ' ' :: rest]) ∧
      (¬ (cam.log_.is_open = true ∧ cam.log_.fail = false) →
        (log_frame prims cam acc log_depth).2.1.log_.lines = cam.log_.lines)) ∧
    (∀ (path : List Char) (frames : List (FrameAccess α × Bool)),
      cam.log_.is_open = false →
      (∀ f ∈ frames, (f.1.rgb true).1 = true ∧ (f.1.pose true).1 = true) →
      (start_log cam path true).1 = true ∧ (start_log cam path true).2.log_index_ = 0 ∧
      (log_frames prims (start_log cam path true).2 frames).log_.lines.length = frames.length ∧
      (log_frames prims (start_log cam path true).2 frames).log_index_ = frames.length ∧
      ∀ n, n < frames.length →
        ∃ rest, (log_frames prims (start_log cam path true).2 frames).log_.lines[n]?
          = some (prims.put_index n ++ ' ' :: rest)) := by
  refine ⟨fun h => ?_, fun hrgb hpose => ?_, fun path frames hclosed hall => ?_⟩
  · rw [log_frame_fail prims cam acc log_depth h]
    exact ⟨rfl, rfl⟩
  · rw [log_frame_ok prims cam acc log_depth hrgb hpose]
    refine ⟨rfl, rfl, fun hopen hgood => ?_, fun hlost => ?_⟩
    · simp only [putLine_good _ _ hopen hgood, logLine]
      exact ⟨_, rfl⟩
    · exact putLine_lost _ _ hlost
  · have hlog := start_log_fresh cam path hclosed
    obtain ⟨h1, h2⟩ := log_frames_ok prims frames hall (start_log cam path true).2
      (by rw [hlog]) (by rw [hlog])
    have hi : (start_log cam path true).2.log_index_ = 0 := rfl
    have hret : (start_log cam path true).1 = true := by
      show (start_log cam path true).2.log_.is_open = true
      rw [hlog]
    rw [hlog, hi] at h1
    rw [hi, Nat.zero_add] at h2
    simp only [List.nil_append] at h1
    refine ⟨hret, rfl, by rw [h1, expectedLines_length], h2, fun n hn => ?_⟩
    obtain ⟨f, hf⟩ : ∃ f, frames[n]? = some f := ⟨frames[n], List.getElem?_eq_getElem hn⟩
    rw [h1, expectedLines_lookup prims 0 n frames f hf, Nat.zero_add]
    simp only [logLine]
    exact ⟨_, rfl⟩

/-- Witness of claim C19 as amended: a frame without colour is not logged; on the log opened by
`start_log` a frame is logged in one line that starts with the counter; two frames logged after
`start_log` on a camera whose log was not open. -/
theorem C19_log_frame_open_log_witness :
    (log_frame intPrims intCamera0 intFramesDepthOnly true).1 = false ∧
    (log_frame intPrims (start_log intCamera0 ['d'] true).2 intLogFrames true).1 = true ∧
    (∃ rest, (log_frame intPrims (start_log intCamera0 ['d'] true).2 intLogFrames
        true).2.1.log_.lines
      = (start_log intCamera0 ['d'] true).2.log_.lines ++
          [intPrims.put_index (start_log intCamera0 ['d'] true).2.log_index_ ++ ' ' :: rest]) ∧
    intCamera0.log_.is_open = false ∧
    (log_frames intPrims (start_log intCamera0 ['d'] true).2
      [(intLogFrames, true), (intLogFrames, false)]).log_.lines.length = 2 ∧
    (log_frames intPrims (start_log intCamera0 ['d'] true).2
      [(intLogFrames, true), (intLogFrames, false)]).log_index_ = 2 :=
  ⟨((C19_log_frame_open_log intPrims intCamera0 intFramesDepthOnly true).1 (Or.inl rfl)).1,
    ((C19_log_frame_open_log intPrims (start_log intCamera0 ['d'] true).2 intLogFrames true).2.1
      rfl rfl).1,
    ((C19_log_frame_open_log intPrims (start_log intCamera0 ['d'] true).2 intLogFrames true).2.1
      rfl rfl).2.2.1 rfl rfl,
    rfl,
    ((C19_log_frame_open_log intPrims intCamera0 intLogFrames true).2.2 ['d']
      [(intLogFrames, true), (intLogFrames, false)] rfl (by decide)).2.2.1,
    ((C19_log_frame_open_log intPrims intCamera0 intLogFrames true).2.2 ['d']
      [(intLogFrames, true), (intLogFrames, false)] rfl (by decide)).2.2.2.1⟩

/-- Claim C20: the flag `log_depth` has no influence on `log_frame`: with `true` and with `false`
the call returns the same result, the same camera (hence the same log and counter) and the same
written files; the result does not depend on the depth accessor, which is never called; and the
only file written is the colour image `rgb_<counter>.png`. -/
theorem C20_log_depth_ignored (prims : Primitives α) (cam : Camera α) (acc : FrameAccess α)
    (log_depth : Bool) :
    log_frame prims cam acc true = log_frame prims cam acc false ∧
    (∀ depth' : Bool → Bool × MatrixX α,
      log_frame prims cam { acc with depth := depth' } log_depth
        = log_frame prims cam acc log_depth) ∧
    (∀ file ∈ (log_frame prims cam acc log_depth).2.2,
      file = (cam.log_path_ ++ "rgb_".toList ++ prims.to_string cam.log_index_ ++ ".png".toList,
        (acc.rgb true).2)) := by
  refine ⟨?_, fun depth' => ?_, fun file hfile => ?_⟩
  · simp [log_frame]
  · cases log_depth <;> simp [log_frame]
  · by_cases h : (acc.rgb true).1 = true ∧ (acc.pose true).1 = true
    · rw [log_frame_ok prims cam acc log_depth h.1 h.2] at hfile
      exact List.mem_singleton.mp hfile
    · have h' : (acc.rgb true).1 = false ∨ (acc.pose true).1 = false := by
        by_cases h1 : (acc.rgb true).1 = true
        · exact Or.inr (by simpa using fun h2 => h ⟨h1, h2⟩)
        · exact Or.inl (by simpa using h1)
      rw [log_frame_fail prims cam acc log_depth h'] at hfile
      exact absurd hfile (List.not_mem_nil _)

/-- Witness of claim C20: on the integer camera with an open log, both flags give the same
successful call. -/
theorem C20_log_depth_ignored_witness :
    log_frame intPrims (start_log intCamera0 ['d'] true).2 intLogFrames true
      = log_frame intPrims (start_log intCamera0 ['d'] true).2 intLogFrames false ∧
    (log_frame intPrims (start_log intCamera0 ['d'] true).2 intLogFrames true).1 = true :=
  ⟨(C20_log_depth_ignored intPrims (start_log intCamera0 ['d'] true).2 intLogFrames true).1,
    by decide⟩

theorem expectedLines_mem (prims : Primitives α) (i : Nat)
    (frames : List (FrameAccess α × Bool)) (line : List Char)
    (h : line ∈ expectedLines prims i frames) :
    ∃ k, ∃ f ∈ frames,
      line = logLine prims k (f.1.pose true).2 (f.1.auxiliary_data true) := by
  induction frames generalizing i with
  | nil => simp [expectedLines] at h
  | cons g rest ih =>
    simp only [expectedLines, List.mem_cons] at h
    rcases h with h | h
    · exact ⟨i, g, List.mem_cons_self _ _, h⟩
    · obtain ⟨k, f, hf, hl⟩ := ih (i + 1) h
      exact ⟨k, f, List.mem_cons_of_mem _ hf, hl⟩

theorem logFields_length (prims : Primitives α) (i : Nat) (pose : Transform α)
    (aux : Bool × List α) (auxiliary_data_size : Nat)
    (haux : if aux.1 then aux.2.length = auxiliary_data_size else auxiliary_data_size = 0) :
    (logFields prims i pose aux).length = standard_data_offset_ + auxiliary_data_size := by
  unfold logFields standard_data_offset_
  cases h : aux.1
  · rw [h] at haux
    simp only [Bool.false_eq_true, if_false] at haux
    simp [haux]
  · rw [h] at haux
    simp only [if_true] at haux
    simp [haux]
    omega

theorem logFields_numeric (prims : Primitives α)
    (hparse : ∀ x, prims.stod (prims.put_double x) = some x)
    (hidx : ∀ n, (prims.stod (prims.put_index n)).isSome = true)
    (i : Nat) (pose : Transform α) (aux : Bool × List α) :
    ∀ w ∈ logFields prims i pose aux, (prims.stod w).isSome = true := by
  intro w hw
  have hd : ∀ (row : List α), w ∈ row.map prims.put_double →
      (prims.stod w).isSome = true := fun row hrow => by
    obtain ⟨x, _, hx⟩ := List.mem_map.mp hrow
    rw [← hx, hparse x]
    rfl
  unfold logFields at hw
  rcases List.mem_cons.mp hw with h | h
  · rw [h]
    exact hidx i
  · rcases List.mem_append.mp h with h | h
    · exact hd _ h
    · rcases List.mem_append.mp h with h | h
      · exact hd _ h
      · rcases List.mem_append.mp h with h | h
        · exact hd _ h
        · cases haux : aux.1
          · rw [haux] at h
            exact absurd h (by simp)
          · rw [haux] at h
            exact hd _ (by simpa using h)

/-- Claim C17, at a failing input: on a table of one column, after `set_frame_index 5` and
after `reset` (frame index `-1`), `pose_offline` reports success, and so does
`auxiliary_data_offline` when the auxiliary size is not zero. -/
theorem C17_offline_access_reports_success :
    (offlineCamera 1 0).data_.cols = 1 ∧
    (set_frame_index (offlineCamera 1 0) 5).2.frame_index_ = 5 ∧
    (pose_offline intPrims (set_frame_index (offlineCamera 1 0) 5).2).1 = true ∧
    (auxiliary_data_offline 2 (set_frame_index (offlineCamera 1 0) 5).2).1 = true ∧
    (reset (offlineCamera 1 0)).2.frame_index_ = -1 ∧
    (pose_offline intPrims (reset (offlineCamera 1 0)).2).1 = true ∧
    (auxiliary_data_offline 2 (reset (offlineCamera 1 0)).2).1 = true := by
  decide

end Recorder

/-! ## Round trip between the recorder and the loader -/

section RoundTrip

variable {α : Type} [Zero α] [One α]

/-- Claim C18: the frames that `log_frame` logs after a `start_log` that opens the file, on a
camera whose log was not open (colour and pose delivered, auxiliary data of length
`auxiliary_size` or, when that is 0, none), read back by `load_data` under the same
`auxiliary_size`, load with success into a table of one column per frame, and at frame index `j`
`pose_offline` rebuilds the pose from the translation `t` and the axis and angle `(a, w)` of
frame `j`.  Printing then reading a number gives the number back; a printed number, or counter,
is one word. -/
theorem C18_round_trip (prims : Primitives α) (auxiliary_data_size : Nat)
    (hparse : ∀ x, prims.stod (prims.put_double x) = some x)
    (hput : ∀ x, IsWord (prims.put_double x))
    (hidx : ∀ n, IsWord (prims.put_index n) ∧ (prims.stod (prims.put_index n)).isSome = true)
    (cam : Camera α) (hclosed : cam.log_.is_open = false) (path : List Char)
    (frames : List (FrameAccess α × Bool))
    (hall : ∀ f ∈ frames, (f.1.rgb true).1 = true ∧ (f.1.pose true).1 = true ∧
      if (f.1.auxiliary_data true).1 then (f.1.auxiliary_data true).2.length = auxiliary_data_size
      else auxiliary_data_size = 0) :
    ∃ data,
      load_data prims auxiliary_data_size
          (some (log_frames prims (start_log cam path true).2 frames).log_.lines)
        = some (true, data) ∧
      data.cols = frames.length ∧
      ∀ (j : Nat) (f : FrameAccess α × Bool), frames[j]? = some f →
        ∀ offline : Camera α, offline.data_ = data → offline.frame_index_ = (j : Int) →
          pose_offline prims offline
            = (true, prims.rotate
                (Transform.ofTranslation
                  ⟨(f.1.pose true).2.translation 0, (f.1.pose true).2.translation 1,
                    (f.1.pose true).2.translation 2⟩)
                (prims.angle_axis (f.1.pose true).2)) := by
  have hlog := start_log_fresh cam path hclosed
  obtain ⟨hlines, _⟩ := log_frames_ok prims frames
    (fun f hf => ⟨(hall f hf).1, (hall f hf).2.1⟩) (start_log cam path true).2
    (by rw [hlog]) (by rw [hlog])
  have hi : (start_log cam path true).2.log_index_ = 0 := rfl
  rw [hlog, hi] at hlines
  simp only [List.nil_append] at hlines
  rw [hlines]
  have hwords : ∀ line ∈ expectedLines prims 0 frames, ∃ k, ∃ f ∈ frames,
      words line = logFields prims k (f.1.pose true).2 (f.1.auxiliary_data true) := by
    intro line hline
    obtain ⟨k, f, hf, hk⟩ := expectedLines_mem prims 0 frames line hline
    exact ⟨k, f, hf, by rw [hk, words_logLine prims (fun n => (hidx n).1) hput]⟩
  obtain ⟨data, hd, _, hc, hval⟩ := load_data_lookup prims auxiliary_data_size
    (expectedLines prims 0 frames)
    (fun line hline w hw => by
      obtain ⟨k, f, _, hk⟩ := hwords line hline
      rw [hk] at hw
      exact logFields_numeric prims hparse (fun n => (hidx n).2) k _ _ w hw)
    (fun line hline => by
      obtain ⟨k, f, hf, hk⟩ := hwords line hline
      rw [hk]
      exact logFields_length prims k _ _ auxiliary_data_size (hall f hf).2.2)
  refine ⟨data, hd, by rw [hc, expectedLines_length], ?_⟩
  intro j f hf offline hdata hindex
  have hline := expectedLines_lookup prims 0 j frames f hf
  have hw : words (logLine prims (0 + j) (f.1.pose true).2 (f.1.auxiliary_data true))
      = logFields prims (0 + j) (f.1.pose true).2 (f.1.auxiliary_data true) :=
    words_logLine prims (fun n => (hidx n).1) hput _ _ _
  have hentry : ∀ r x,
      (logFields prims (0 + j) (f.1.pose true).2 (f.1.auxiliary_data true))[r]?
        = some (prims.put_double x) → data.coeff r j = x := by
    intro r x hr
    have h := hval j _ r _ hline (by rw [hw]; exact hr)
    rw [hparse x] at h
    exact (Option.some.inj h).symm
  have hcol : ∀ r, offline.data_.col offline.frame_index_ r = data.coeff r j := by
    intro r
    unfold MatrixX.col
    rw [hdata, hindex, if_pos (Int.ofNat_nonneg j), Int.toNat_ofNat]
  unfold pose_offline
  simp only [hcol]
  rw [hentry 1 _ rfl, hentry (1 + 1) _ rfl, hentry (1 + 2) _ rfl, hentry (1 + 3 + 0) _ rfl,
    hentry (1 + 3 + 1) _ rfl, hentry (1 + 3 + 2) _ rfl,
    hentry (1 + 3 + 3) (prims.angle_axis (f.1.pose true).2).angle (by simp [logFields])]

end RoundTrip

/-! ## Decimal printing and reading of the integer primitives -/

section Decimal

theorem isdigit_digitChar (d : Nat) (hd : d < 10) : isdigit (digitChar d) = true := by
  interval_cases d <;> rfl

theorem toNat_digitChar (d : Nat) (hd : d < 10) : (digitChar d).toNat - 48 = d := by
  interval_cases d <;> rfl

theorem isspace_of_isdigit (c : Char) (h : isdigit c = true) : isspace c = false := by
  unfold isdigit at h
  simp only [Bool.and_eq_true, decide_eq_true_eq] at h
  unfold isspace
  simp only [Bool.or_eq_false_iff, decide_eq_false_iff_not]
  refine ⟨⟨⟨⟨⟨?_, ?_⟩, ?_⟩, ?_⟩, ?_⟩, ?_⟩ <;>
  · intro hc
    rw [hc] at h
    revert h
    decide

theorem putNat_isdigit (n : Nat) : ∀ c ∈ putNat n, isdigit c = true := by
  intro c hc
  unfold putNat at hc
  split at hc
  · rw [List.mem_singleton.mp hc]
    rfl
  · obtain ⟨d, hd, hdc⟩ := List.mem_map.mp hc
    rw [← hdc]
    exact isdigit_digitChar d (Nat.digits_lt_base (by norm_num) (List.mem_reverse.mp hd))

theorem putNat_ne_nil (n : Nat) : putNat n ≠ [] := by
  unfold putNat
  split
  · simp
  · next hn =>
    intro h
    rw [List.map_eq_nil_iff, List.reverse_eq_nil_iff] at h
    exact Nat.digits_ne_nil_iff_ne_zero.mpr hn h

theorem parseNat_putNat (n : Nat) : parseNat (putNat n) = some n := by
  have h1 : (putNat n).isEmpty = false := by
    cases h : putNat n with
    | nil => exact absurd h (putNat_ne_nil n)
    | cons _ _ => rfl
  have h2 : (putNat n).all isdigit = true := List.all_eq_true.mpr (putNat_isdigit n)
  unfold parseNat
  rw [h1, h2]
  simp only [Bool.not_true, Bool.or_self, Bool.false_eq_true, if_false, Option.some.injEq]
  unfold putNat
  split
  · next hn =>
    rw [hn]
    rfl
  · rw [← List.map_reverse, List.reverse_reverse, List.map_map]
    have hmap : (Nat.digits 10 n).map ((fun c => c.toNat - 48) ∘ digitChar) = Nat.digits 10 n := by
      conv_rhs => rw [← List.map_id (Nat.digits 10 n)]
      exact List.map_congr_left
        (fun d hd => toNat_digitChar d (Nat.digits_lt_base (by norm_num) hd))
    rw [hmap]
    exact Nat.ofDigits_digits 10 n

theorem putNat_head (n : Nat) : (putNat n).head? ≠ some '-' := by
  intro h
  cases hp : putNat n with
  | nil => exact absurd hp (putNat_ne_nil n)
  | cons c cs =>
    rw [hp] at h
    simp only [List.head?_cons, Option.some.injEq] at h
    have hc := putNat_isdigit n c (by rw [hp]; exact List.mem_cons_self _ _)
    rw [h] at hc
    exact absurd hc (by decide)

theorem isWord_putNat (n : Nat) : IsWord (putNat n) :=
  ⟨putNat_ne_nil n, fun c hc => isspace_of_isdigit c (putNat_isdigit n c hc)⟩

theorem parseInt_putNat (n : Nat) : parseInt (putNat n) = some (n : Int) := by
  unfold parseInt
  rw [if_neg (putNat_head n), parseNat_putNat]
  rfl

theorem parseInt_putInt (z : Int) : parseInt (putInt z) = some z := by
  unfold putInt
  split
  · next hz =>
    unfold parseInt
    simp only [List.head?_cons, if_true, List.tail_cons]
    rw [parseNat_putNat]
    show some (-((z.natAbs : Nat) : Int)) = some z
    congr 1
    omega
  · next hz =>
    rw [parseInt_putNat]
    simp only [Option.some.injEq]
    omega

theorem isWord_putInt (z : Int) : IsWord (putInt z) := by
  unfold putInt
  split
  · refine ⟨by simp, fun c hc => ?_⟩
    rcases List.mem_cons.mp hc with h | h
    · rw [h]
      rfl
    · exact (isWord_putNat _).2 c h
  · exact isWord_putNat _

/-- Witness of claim C18: two frames with the pose `intPose` logged and read back with the
decimal integer primitives. -/
theorem C18_round_trip_witness :
    intCamera0.log_.is_open = false ∧
    ∃ data,
      load_data intPrims 0
          (some (log_frames intPrims (start_log intCamera0 ['d'] true).2
            [(intLogFrames, true), (intLogFrames, false)]).log_.lines)
        = some (true, data) ∧
      data.cols = 2 ∧
      ∀ (j : Nat) (f : FrameAccess ℤ × Bool),
        [(intLogFrames, true), (intLogFrames, false)][j]? = some f →
        ∀ offline : Camera ℤ, offline.data_ = data → offline.frame_index_ = (j : Int) →
          pose_offline intPrims offline
            = (true, intPrims.rotate
                (Transform.ofTranslation
                  ⟨(f.1.pose true).2.translation 0, (f.1.pose true).2.translation 1,
                    (f.1.pose true).2.translation 2⟩)
                (intPrims.angle_axis (f.1.pose true).2)) :=
  ⟨rfl, C18_round_trip intPrims 0 parseInt_putInt isWord_putInt
    (fun n => ⟨isWord_putNat n, by
      show (parseInt (putNat n)).isSome = true
      rw [parseInt_putNat]
      rfl⟩)
    intCamera0 rfl ['d'] [(intLogFrames, true), (intLogFrames, false)] (by decide)⟩

end Decimal

/-! ## The offline state machine -/

section Sequencing

variable {α : Type}

/-- A call of `step_frame` keeps the status when it succeeds and clears it when it fails. -/
theorem step_frame_status (cam : Camera α) :
    (step_frame cam).2.status_ = (cam.status_ && (step_frame cam).1) := by
  unfold step_frame
  by_cases hoff : is_offline cam = true
  · rw [if_pos hoff]
    simp only
    by_cases hgt : wrapInt32 (wrapInt32 (cam.frame_index_ + 1) + 1) > (cam.data_.cols : Int)
    · rw [if_pos hgt]
      simp
    · rw [if_neg hgt]
      simp
  · rw [if_neg hoff]
    simp

/-- After any number of calls of `step_frame` the status is true exactly when it was true before
and no call has failed. -/
theorem step_frames_status (cam : Camera α) (j : Nat) :
    (step_frames j cam).status_ = true ↔
      cam.status_ = true ∧ ∀ i, i < j → (step_frame (step_frames i cam)).1 = true := by
  induction j with
  | zero =>
    exact ⟨fun h => ⟨h, fun i hi => absurd hi (Nat.not_lt_zero i)⟩, fun h => h.1⟩
  | succ j ih =>
    rw [step_frames_succ, step_frame_status, Bool.and_eq_true, ih]
    constructor
    · rintro ⟨⟨h0, hall⟩, hj⟩
      refine ⟨h0, fun i hi => ?_⟩
      rcases Nat.lt_succ_iff_lt_or_eq.mp hi with h | h
      · exact hall i h
      · rw [h]
        exact hj
    · rintro ⟨h0, hall⟩
      exact ⟨⟨h0, fun i hi => hall i (Nat.lt_succ_of_lt hi)⟩, hall j (Nat.lt_succ_self j)⟩

/-- From `reset`, `j` calls of `step_frame` leave an offline camera at frame index `j - 1`, with
its table untouched. -/
theorem step_frames_from_reset (cam : Camera α) (hoff : cam.offline_mode_ = true) (j : Nat)
    (hrange : j + 1 < 2147483648) :
    (step_frames j (reset cam).2).offline_mode_ = true ∧
    (step_frames j (reset cam).2).data_ = cam.data_ ∧
    (step_frames j (reset cam).2).frame_index_ = (j : Int) - 1 := by
  induction j with
  | zero =>
    have hr : (reset cam).2 = { cam with frame_index_ := -1, status_ := true } := by
      unfold reset is_offline
      rw [hoff, if_pos rfl]
    refine ⟨?_, ?_, ?_⟩
    · show (reset cam).2.offline_mode_ = true
      rw [hr]
      exact hoff
    · show (reset cam).2.data_ = cam.data_
      rw [hr]
    · show (reset cam).2.frame_index_ = ((0 : Nat) : Int) - 1
      rw [hr]
      rfl
  | succ j ih =>
    obtain ⟨h1, h2, h3⟩ := ih (by omega)
    rw [step_frames_succ, step_frame_offline_eq _ h1 (by omega) (by omega)]
    split
    · exact ⟨h1, h2, by simp only [h3]; push_cast; ring⟩
    · exact ⟨h1, h2, by simp only [h3]; push_cast; ring⟩

/-- Claim C21: for an offline camera, starting from `reset` and calling only `step_frame`: after
the `j`-th call (`j ≥ 1`, the frame index staying in the range of a 32 bit signed integer) the
frame index is `j - 1`, and when that call returned success the frame index is at least 0 and
less than the number of columns of the table; after any number of calls `status` is true exactly
when none of the calls has failed. -/
theorem C21_offline_sequencing (cam : Camera α) (hoff : cam.offline_mode_ = true) :
    (∀ j : Nat, 1 ≤ j → j + 1 < 2147483648 →
      (step_frames j (reset cam).2).frame_index_ = (j : Int) - 1 ∧
      ((step_frame (step_frames (j - 1) (reset cam).2)).1 = true →
        0 ≤ (step_frames j (reset cam).2).frame_index_ ∧
        (step_frames j (reset cam).2).frame_index_
          < ((step_frames j (reset cam).2).data_.cols : Int))) ∧
    (∀ j : Nat, status (step_frames j (reset cam).2) = true ↔
      ∀ i, i < j → (step_frame (step_frames i (reset cam).2)).1 = true) := by
  constructor
  · intro j hj hrange
    obtain ⟨_, hd, hi⟩ := step_frames_from_reset cam hoff j hrange
    obtain ⟨p1, p2, p3⟩ := step_frames_from_reset cam hoff (j - 1) (by omega)
    refine ⟨hi, fun hok => ?_⟩
    rw [step_frame_offline_eq _ p1 (by omega) (by omega)] at hok
    split at hok
    · exact absurd hok (by simp)
    · next hle =>
      rw [p2, p3] at hle
      rw [hi, hd]
      omega
  · intro j
    unfold status
    rw [step_frames_status]
    exact ⟨fun h => h.2, fun h => ⟨rfl, h⟩⟩

/-- Witness of claim C21: a table of 3 columns; the second call succeeds and leaves index 1, the
fourth call leaves index 3, and after two calls the status is true. -/
theorem C21_offline_sequencing_witness :
    (step_frames 2 (reset (offlineCamera 3 2)).2).frame_index_ = 1 ∧
    0 ≤ (step_frames 2 (reset (offlineCamera 3 2)).2).frame_index_ ∧
    (step_frames 2 (reset (offlineCamera 3 2)).2).frame_index_ < 3 ∧
    (step_frames 4 (reset (offlineCamera 3 2)).2).frame_index_ = 3 ∧
    status (step_frames 2 (reset (offlineCamera 3 2)).2) = true ∧
    status (step_frames 4 (reset (offlineCamera 3 2)).2) = false :=
  ⟨((C21_offline_sequencing (offlineCamera 3 2) rfl).1 2 (by decide) (by decide)).1,
    (((C21_offline_sequencing (offlineCamera 3 2) rfl).1 2 (by decide) (by decide)).2
      (by decide)).1,
    (((C21_offline_sequencing (offlineCamera 3 2) rfl).1 2 (by decide) (by decide)).2
      (by decide)).2,
    ((C21_offline_sequencing (offlineCamera 3 2) rfl).1 4 (by decide) (by decide)).1,
    ((C21_offline_sequencing (offlineCamera 3 2) rfl).2 2).mpr (by decide),
    by decide⟩

end Sequencing

/-! ## The stores of the loader -/

section LoaderWrites

variable {α : Type}

theorem readFieldsTraced_fst (stod : List Char → Option α) (k fl : Nat) (ws : List (List Char))
    (st : MatrixX α × Nat) (trace : List Nat) :
    (readFieldsTraced stod k fl ws st trace).1 = readFields stod k fl ws st := by
  induction ws generalizing st trace with
  | nil => rfl
  | cons w rest ih =>
    rw [readFieldsTraced, readFields]
    cases stod w with
    | none => rfl
    | some x => exact ih _ _

theorem loadLinesTraced_fst [Zero α] (stod : List Char → Option α) (k : Nat)
    (lines : List (List Char)) (data : MatrixX α) (fl : Nat) (trace : List Nat) :
    (loadLinesTraced stod k lines data fl trace).1 = loadLines stod k lines data fl := by
  induction lines generalizing data fl trace with
  | nil => rfl
  | cons line rest ih =>
    rw [loadLinesTraced, loadLines]
    have h := readFieldsTraced_fst stod k fl (words line) (data, 0) trace
    cases hr : readFields stod k fl (words line) (data, 0) with
    | none =>
      rw [hr] at h
      simp only [h]
    | some st =>
      rw [hr] at h
      simp only [h]
      split
      · rfl
      · exact ih _ _ _

/-- The traced loader returns what `load_data` returns. -/
theorem load_data_traced_fst [Zero α] (prims : Primitives α) (auxiliary_data_size : Nat)
    (file : Option (List (List Char))) :
    (load_data_traced prims auxiliary_data_size file).1
      = load_data prims auxiliary_data_size file := by
  unfold load_data_traced load_data
  cases file with
  | none => rfl
  | some lines => exact loadLinesTraced_fst _ _ _ _ _ _

/-- The stores of the loop over the words of line `fl`, started at field `ff`: one for each word
read, at the indices from `k * fl + ff` on. -/
theorem readFieldsTraced_mem (stod : List Char → Option α) (k fl : Nat) (ws : List (List Char))
    (st : MatrixX α × Nat) (trace : List Nat) :
    ∀ index ∈ (readFieldsTraced stod k fl ws st trace).2,
      index ∈ trace ∨ (k * fl + st.2 ≤ index ∧ index < k * fl + st.2 + ws.length) := by
  induction ws generalizing st trace with
  | nil => exact fun index h => Or.inl h
  | cons w rest ih =>
    intro index h
    rw [readFieldsTraced] at h
    cases hw : stod w with
    | none =>
      rw [hw] at h
      exact Or.inl h
    | some x =>
      rw [hw] at h
      rcases ih _ _ index h with h1 | h1
      · rcases List.mem_append.mp h1 with h2 | h2
        · exact Or.inl h2
        · rw [List.mem_singleton.mp h2, List.length_cons]
          exact Or.inr ⟨le_rfl, by omega⟩
      · simp only [List.length_cons] at h1 ⊢
        exact Or.inr ⟨by omega, by omega⟩

/-- When no line has more than `k` fields, every store of the loop over the lines is inside the
columns of the lines read. -/
theorem loadLinesTraced_mem [Zero α] (stod : List Char → Option α) (k : Nat)
    (lines : List (List Char)) (hlen : ∀ line ∈ lines, (words line).length ≤ k)
    (data : MatrixX α) (fl : Nat) (trace : List Nat) :
    ∀ index ∈ (loadLinesTraced stod k lines data fl trace).2,
      index ∈ trace ∨ index < k * (fl + lines.length) := by
  induction lines generalizing data fl trace with
  | nil => exact fun index h => Or.inl h
  | cons line rest ih =>
    intro index h
    have hline := hlen line (List.mem_cons_self _ _)
    have hread := readFieldsTraced_mem stod k fl (words line) (data, 0) trace
    have hk : k * (fl + 1) ≤ k * (fl + (line :: rest).length) :=
      Nat.mul_le_mul_left k (by simp only [List.length_cons]; omega)
    have hk1 : k * (fl + 1) = k * fl + k := by ring
    have hin : ∀ i ∈ (readFieldsTraced stod k fl (words line) (data, 0) trace).2,
        i ∈ trace ∨ i < k * (fl + (line :: rest).length) := by
      intro i hi
      rcases hread i hi with h1 | h1
      · exact Or.inl h1
      · simp only [Nat.add_zero] at h1
        exact Or.inr (by omega)
    rw [loadLinesTraced] at h
    cases hr : (readFieldsTraced stod k fl (words line) (data, 0) trace).1 with
    | none =>
      simp only [hr] at h
      exact hin index h
    | some st =>
      simp only [hr] at h
      split at h
      · exact hin index h
      · rcases ih (fun l hl => hlen l (List.mem_cons_of_mem _ hl)) _ _ _ index h with h1 | h1
        · exact hin index h1
        · refine Or.inr ?_
          have hlen' : fl + 1 + rest.length = fl + (line :: rest).length := by
            simp only [List.length_cons]
            omega
          rw [hlen'] at h1
          exact h1

/-- When no line of the text has more than `k = num_fields` fields, every element that
`load_data` writes has a linear index below `k * m`. -/
theorem load_data_writes_bound [Zero α] (prims : Primitives α) (auxiliary_data_size : Nat)
    (lines : List (List Char))
    (hlen : ∀ line ∈ lines, (words line).length ≤ standard_data_offset_ + auxiliary_data_size) :
    ∀ index ∈ load_data_writes prims auxiliary_data_size (some lines),
      index < (standard_data_offset_ + auxiliary_data_size) * lines.length := by
  intro index h
  rcases loadLinesTraced_mem prims.stod _ lines hlen _ 0 [] index h with h1 | h1
  · exact absurd h1 (List.not_mem_nil _)
  · rw [Nat.zero_add] at h1
    exact h1

/-- Claim C22, at a failing input: for the text of the single line `0 1 2 3 0 0 1 90 7`
(9 fields, `k = 8`, `m = 1`) `load_data` writes the elements of linear index 0 to 8, and the
last index is not less than `k * m = 8`: the ninth field is stored one element past the `8 x 1`
table, before the count of the fields is compared; the call then returns failure. -/
theorem C22_store_past_the_table :
    longLineText.length = 1 ∧ (1 + 3 + 4 + 0) * longLineText.length = 8 ∧
    load_data_writes intPrims 0 (some longLineText) = [0, 1, 2, 3, 4, 5, 6, 7, 8] ∧
    (∃ index ∈ load_data_writes intPrims 0 (some longLineText),
      ¬ index < (1 + 3 + 4 + 0) * longLineText.length) ∧
    ((load_data_traced intPrims 0 (some longLineText)).1.map Prod.fst = some false) := by
  decide

end LoaderWrites

end RobotsIO
